import Mathlib

/-!
# Verification of the poloniex_api client

Shallow embedding of the four source files of `src/poloniex`
(`abstract.py`, `api.py`, `public.py`, `public_v2.py`) and proofs about it.

The client is a thin wrapper over HTTP GET endpoints.  The embedding models

* the UTC date/time codec (`date_to_unix_ts_in_utc` of `public.py`/`api.py`,
  `date_to_unix_ts_in_utc` and `unix_ts_to_date` of `public_v2.py`),
* the HTTP executors (`PublicAPI.execute` of `public.py` and of `api.py`,
  `PublicApiV2._execute`), with the underlying `requests.get(...).json()`
  call abstracted into a `fetch : String → Except String JVal` parameter,
* the v1 chart-data validation (`PublicAPI.get_chartdata`),
* the v2 order-book reshaping (`PublicApiV2.get_orderbook`) and the v2
  candle table builder (`PublicApiV2.get_candles`),
* the trade-history pagination loops (`get_trade_history` and
  `get_trade_history_batch` of `public.py`, `get_trade_history` of `api.py`),
  with the server abstracted into a function from (query index, start,
  cursor) to the returned page, and an explicit fuel parameter standing for
  the number of loop iterations still allowed; every variant also reports
  the number of queries it issued.
-/

/-! ## Civil calendar arithmetic (UTC)

Python's `datetime` module implements the proleptic Gregorian calendar.
`daysFromCivil`/`civilFromDays` are the standard era-based conversions
between a calendar date and a linear day count; Python computes the same
values via its ordinal functions (`_ymd2ord`/`_ord2ymd`).  Day number 0 is
0001-01-01; 1970-01-01 is day number 719162. -/

/-- Proleptic Gregorian leap year, as `datetime` implements it. -/
def isLeap (y : Nat) : Bool := (y % 4 == 0 && y % 100 != 0) || y % 400 == 0

/-- Number of days in month `m` of year `y`; the bound `datetime.datetime`
enforces on the day-of-month argument. -/
def daysInMonth (y m : Nat) : Nat :=
  if m = 2 then (if isLeap y then 29 else 28)
  else if m = 4 || m = 6 || m = 9 || m = 11 then 30 else 31

/-- A civil UTC timestamp at second precision: the fields a
`datetime.datetime` built by `strptime(date, "%Y-%m-%d %H:%M:%S")` carries
(sub-second part always zero). -/
structure Civil where
  y : Nat
  mo : Nat
  d : Nat
  h : Nat
  mi : Nat
  s : Nat
deriving DecidableEq, Repr

/-- The ranges `datetime.datetime(y, mo, d, h, mi, s)` accepts
(`MINYEAR = 1`, `MAXYEAR = 9999`, day bounded by the month length). -/
def validCivil (t : Civil) : Prop :=
  1 ≤ t.y ∧ t.y ≤ 9999 ∧ 1 ≤ t.mo ∧ t.mo ≤ 12 ∧ 1 ≤ t.d ∧
    t.d ≤ daysInMonth t.y t.mo ∧ t.h ≤ 23 ∧ t.mi ≤ 59 ∧ t.s ≤ 59

instance : DecidablePred validCivil := fun t => by unfold validCivil; infer_instance

/-- Day number (0001-01-01 = 0) of a civil date, for years `≥ 1`.
Era-based form of the Gregorian date-to-ordinal conversion computed by
Python's `datetime.toordinal`. -/
def daysFromCivil (y m d : Nat) : Nat :=
  let yy := if m ≤ 2 then y - 1 else y
  let era := yy / 400
  let yoe := yy % 400
  let mp := if m ≤ 2 then m + 9 else m - 3
  let doy := (153 * mp + 2) / 5 + d - 1
  let doe := yoe * 365 + yoe / 4 - yoe / 100 + doy
  era * 146097 + doe - 306

/-- Inverse of `daysFromCivil`: civil date `(y, m, d)` of a day number
(0001-01-01 = 0).  Era-based form of Python's ordinal-to-date
conversion (`_ord2ymd`). -/
def civilFromDays (days : Nat) : Nat × Nat × Nat :=
  let z := days + 306
  let era := z / 146097
  let doe := z % 146097
  let yoe := (doe - doe / 1460 + doe / 36524 - doe / 146096) / 365
  let yv := era * 400 + yoe
  let doy := doe - (365 * yoe + yoe / 4 - yoe / 100)
  let mp := (5 * doy + 2) / 153
  let dv := doy - (153 * mp + 2) / 5 + 1
  let mv := if mp < 10 then mp + 3 else mp - 9
  if mv ≤ 2 then (yv + 1, mv, dv) else (yv, mv, dv)

/-- Day number of 1970-01-01. -/
def epochDays1970 : Nat := 719162

/-- Seconds since 1970-01-01 00:00:00 UTC of a civil timestamp: the value of
`with_timezone.timestamp()` for a UTC-localized datetime (always integral
here, Python returns it as a float). -/
def epochSec (t : Civil) : Int :=
  86400 * ((daysFromCivil t.y t.mo t.d : Int) - (epochDays1970 : Int)) +
    ((3600 * t.h + 60 * t.mi + t.s : Nat) : Int)

/-! ## Digits, parsing and rendering of `YYYY-MM-DD HH:MM:SS` strings -/

/-- The character of a decimal digit `n ≤ 9`. -/
def digitChar (n : Nat) : Char := Char.ofNat (48 + n)

/-- Numeric value of a decimal digit character. -/
def digitVal (c : Char) : Nat := c.toNat - 48

/-- Two-digit zero-padded rendering (`%m`, `%d`, `%H`, `%M`, `%S`). -/
def pad2 (n : Nat) : List Char := [digitChar (n / 10 % 10), digitChar (n % 10)]

/-- Four-digit zero-padded rendering (`%Y`). -/
def pad4 (n : Nat) : List Char :=
  [digitChar (n / 1000 % 10), digitChar (n / 100 % 10),
   digitChar (n / 10 % 10), digitChar (n % 10)]

/-- `strftime("%Y-%m-%d %H:%M:%S")` of a civil timestamp, as a character
list. -/
def renderCivilChars (t : Civil) : List Char :=
  pad4 t.y ++ '-' :: pad2 t.mo ++ '-' :: pad2 t.d ++ ' ' :: pad2 t.h ++
    ':' :: pad2 t.mi ++ ':' :: pad2 t.s

/-- The platform `strftime` rendering of `%Y` that CPython delegates to:
the year in plain decimal with **no** zero padding, so years below 1000
come out shorter than four digits (glibc behaviour, CPython bpo-13305). -/
def yearChars (y : Nat) : List Char :=
  if 1000 ≤ y then pad4 y
  else if 100 ≤ y then
    [digitChar (y / 100 % 10), digitChar (y / 10 % 10), digitChar (y % 10)]
  else if 10 ≤ y then [digitChar (y / 10 % 10), digitChar (y % 10)]
  else [digitChar (y % 10)]

/-- `strftime('%Y-%m-%d %H:%M:%S')` as `unix_ts_to_date` actually emits
it: identical to `renderCivilChars` except that `%Y` is not zero padded,
so the two agree exactly on years `≥ 1000`. -/
def strftimeChars (t : Civil) : List Char :=
  yearChars t.y ++ '-' :: pad2 t.mo ++ '-' :: pad2 t.d ++ ' ' :: pad2 t.h ++
    ':' :: pad2 t.mi ++ ':' :: pad2 t.s

/-- `datetime.strptime(date, "%Y-%m-%d %H:%M:%S")` on a zero-padded
19-character string in the claimed format, including the field validation
the `datetime` constructor performs.  (Python's `strptime` additionally
accepts some non-zero-padded variants of the numeric fields; those are
outside the `YYYY-MM-DD HH:MM:SS` format and never arise here.)
`none` models the `ValueError` raised on a malformed string. -/
def parseCivilChars (cs : List Char) : Option Civil :=
  match cs with
  | [y3, y2, y1, y0, s1, m1, m0, s2, d1, d0, s3, h1, h0, s4, n1, n0, s5, c1, c0] =>
    if s1 = '-' ∧ s2 = '-' ∧ s3 = ' ' ∧ s4 = ':' ∧ s5 = ':' ∧
        ([y3, y2, y1, y0, m1, m0, d1, d0, h1, h0, n1, n0, c1, c0].all Char.isDigit) then
      let t : Civil :=
        { y := 1000 * digitVal y3 + 100 * digitVal y2 + 10 * digitVal y1 + digitVal y0
          mo := 10 * digitVal m1 + digitVal m0
          d := 10 * digitVal d1 + digitVal d0
          h := 10 * digitVal h1 + digitVal h0
          mi := 10 * digitVal n1 + digitVal n0
          s := 10 * digitVal c1 + digitVal c0 }
      if validCivil t then some t else none
    else none
  | _ => none

/-- String-level wrapper of `parseCivilChars`. -/
def parseCivil (s : String) : Option Civil := parseCivilChars s.data

/-- `public.py` (and `abstract.py`) `PublicAPI.date_to_unix_ts_in_utc`:
parse a `"%Y-%m-%d %H:%M:%S"` string as UTC and return
`int(with_timezone.timestamp())`, i.e. whole epoch **seconds**.
(`api.py`'s copy omits the `int(...)` and returns the same value as a
float.)  `none` models the `ValueError` on a malformed string. -/
def date_to_unix_ts_in_utc (s : String) : Option Int :=
  (parseCivil s).map epochSec

/-- `public_v2.py` `PublicApiV2.date_to_unix_ts_in_utc` on a string
argument: `int(with_timezone.timestamp() * 1000)`, i.e. epoch
**milliseconds**.  (On a non-string argument the Python function returns
`int(date)` unchanged; the claims only concern the string branch.) -/
def date_to_unix_ts_in_utc_v2 (s : String) : Option Int :=
  (parseCivil s).map (fun t => 1000 * epochSec t)

/-- `public_v2.py` `PublicApiV2.unix_ts_to_date`:
`datetime.utcfromtimestamp(int(unix_ts)).strftime('%Y-%m-%d %H:%M:%S.%f')`.
The argument is interpreted as epoch **seconds**; the result carries a
microsecond component, `.000000` for whole-second inputs.  `none` models
the error `utcfromtimestamp` raises when the timestamp falls outside years
1..9999.  Python computes the date by floor-dividing the timestamp;
shifting by `62135596800 = 719162 * 86400` seconds (the epoch of
0001-01-01) turns that into the same division on `Nat`.  The year is
rendered by the platform `strftime`, hence **without** zero padding
(`strftimeChars`): a year below 1000 comes out with fewer than four
digits. -/
def unix_ts_to_date (t : Int) : Option String :=
  let u : Int := t + 62135596800
  if u < 0 then none
  else
    let n := u.toNat
    match civilFromDays (n / 86400) with
    | (yv, mv, dv) =>
      if 9999 < yv then none
      else
        some (String.mk (strftimeChars
          ⟨yv, mv, dv, n % 86400 / 3600, n % 86400 % 3600 / 60, n % 86400 % 60⟩ ++
          ('.' :: ['0', '0', '0', '0', '0', '0'])))

/-! ## JSON values and the HTTP executors

`requests.get(url).json()` is abstracted into a parameter
`fetch : String → Except String JVal`: `.error e` models an exception
raised by the request/JSON decoding (with text `e`), `.ok v` the parsed
body. -/

/-- A parsed JSON value. -/
inductive JVal where
  | null
  | str (s : String)
  | num (q : ℚ)
  | arr (elems : List JVal)
  | obj (fields : List (String × JVal))

/-- Python's `key in response` on a parsed JSON value: key membership for
an object, element equality for an array.  (On a string Python would do a
substring test and on a number raise `TypeError`; API responses are
objects or arrays, so those branches never arise.) -/
def pyIn (key : String) : JVal → Bool
  | .obj fields => fields.any (fun f => f.1 == key)
  | .arr elems => elems.any (fun e => match e with | .str s => s == key | _ => false)
  | _ => false

/-- `response[key]` on a JSON object, as an `Option`. -/
def jGet (v : JVal) (key : String) : Option JVal :=
  match v with
  | .obj fields => fields.lookup key
  | _ => none

/-- URL prefix used by the v1 clients. -/
def PUBLIC_API_URL : String := "https://poloniex.com/public?command="

/-- Host used by the v2 client. -/
def HOST : String := "https://api.poloniex.com"

/-- The errors `public.py` raises (`PublicAPIError`), one constructor per
raise site, carrying the Python constructor arguments:
`PublicAPIError(e, command)` on a failed request,
`PublicAPIError(response["error"], command, body=response)` on an error
response, `PublicAPIError("bad_period", "returnChartData", body=period)`
on an unsupported chart period.  (`api.py`'s variant additionally maps a
code string through its `CODES` table; same three kinds.) -/
inductive V1Err where
  | reqError (excMsg : String) (method : String)
  | serverError (errorVal : JVal) (method : String) (body : JVal)
  | badPeriod (method : String) (body : Int)

/-- `public.py` `PublicAPI.execute`: one GET of `PUBLIC_API_URL + command`;
a request/decode failure becomes `reqError`; a parsed body containing an
`'error'` field becomes `serverError` carrying the command; otherwise the
body is returned. -/
def execute (fetch : String → Except String JVal) (command : String) :
    Except V1Err JVal :=
  match fetch (PUBLIC_API_URL ++ command) with
  | .error e => .error (.reqError e command)
  | .ok response =>
    if pyIn "error" response then
      .error (.serverError ((jGet response "error").getD .null) command response)
    else .ok response

/-- `api.py` `PublicAPI.execute`: one GET of `PUBLIC_API_URL + command`;
a request/decode failure becomes `reqError` (code `"req_error"`); the
parsed body is returned **without any inspection of an `'error'` field**. -/
def executeApi (fetch : String → Except String JVal) (command : String) :
    Except V1Err JVal :=
  match fetch (PUBLIC_API_URL ++ command) with
  | .error e => .error (.reqError e command)
  | .ok response => .ok response

/-- The errors `public_v2.py` raises (`PublicApiError`):
`PublicApiError(command=command, message=str(e))` on a failed request,
`PublicApiError(command=command, **response)` when the body has a
`"code"` field (the keyword unpacking supplies `code` and `message` from
the response object). -/
inductive V2Err where
  | reqError (command : String) (message : String)
  | serverError (command : String) (code : Option JVal) (message : Option JVal)

/-- `public_v2.py` `PublicApiV2._execute`: one GET of `HOST + command`; a
request/decode failure becomes `reqError`; a parsed body containing a
`"code"` field becomes `serverError` carrying the command; otherwise the
body is returned. -/
def executeV2 (fetch : String → Except String JVal) (command : String) :
    Except V2Err JVal :=
  match fetch (HOST ++ command) with
  | .error e => .error (.reqError command e)
  | .ok response =>
    if pyIn "code" response then
      .error (.serverError command (jGet response "code") (jGet response "message"))
    else .ok response

/-! ## v1 chart data -/

/-- `PublicAPI.PERIODS`. -/
def PERIODS : List Int := [300, 900, 1800, 7200, 14400, 86400]

/-- `public.py` `PublicAPI.get_chartdata` (same in `api.py`), restricted to
numeric `start`/`end` (string arguments go through the date codec first).
The first component is the list of URLs passed to the underlying HTTP
fetch — the network-call log: an unsupported `period` raises
`bad_period` before any request is made, so the log is empty. -/
def get_chartdata (fetch : String → Except String JVal) (currencyPair : String)
    (period : Int) (start endTs : Int) : List String × Except V1Err JVal :=
  if period ∉ PERIODS then ([], .error (.badPeriod "returnChartData" period))
  else
    let command := "returnChartData&currencyPair=" ++ currencyPair ++
      "&start=" ++ toString start ++ "&end=" ++ toString endTs ++
      "&period=" ++ toString period
    ([PUBLIC_API_URL ++ command], execute fetch command)

/-! ## v2 order book -/

mutual
/-- Elements of `l` at even indices: Python's `l[::2]`. -/
def evens {α : Type} : List α → List α
  | [] => []
  | a :: rest => a :: odds rest
/-- Elements of `l` at odd indices: Python's `l[1::2]`. -/
def odds {α : Type} : List α → List α
  | [] => []
  | _ :: rest => evens rest
end

/-- Python `float(s)` on a plain decimal literal (optional sign, digits,
optional fractional part), modelled exactly as a rational.  `float` also
accepts exponents, `inf`/`nan`, underscores and surrounding whitespace;
the order-book quantity strings are plain decimals, so those branches are
not modelled.  `none` models the `ValueError` on a malformed string. -/
def pyFloatChars (cs : List Char) : Option ℚ :=
  let core := fun (ds : List Char) =>
    let ip := ds.takeWhile Char.isDigit
    let rest := ds.dropWhile Char.isDigit
    match rest with
    | [] =>
      if ip.isEmpty then none
      else some ((ip.foldl (fun a c => 10 * a + digitVal c) 0 : Nat) : ℚ)
    | '.' :: fp =>
      if fp.all Char.isDigit ∧ ¬(ip.isEmpty ∧ fp.isEmpty) then
        some (((ip.foldl (fun a c => 10 * a + digitVal c) 0 : Nat) : ℚ) +
          ((fp.foldl (fun a c => 10 * a + digitVal c) 0 : Nat) : ℚ) / (10 ^ fp.length : Nat))
      else none
    | _ => none
  match cs with
  | '-' :: ds => (core ds).map Neg.neg
  | '+' :: ds => core ds
  | ds => core ds

/-- String-level wrapper of `pyFloatChars`. -/
def pyFloat (s : String) : Option ℚ := pyFloatChars s.data

/-- Insert one key/value pair into a Python dict represented as an
association list in insertion order: an existing key keeps its position
and gets the new value, a new key is appended. -/
def pyDictInsert : List (String × ℚ) → String × ℚ → List (String × ℚ)
  | [], p => [p]
  | (k, v) :: rest, (k', v') =>
    if k = k' then (k, v') :: rest else (k, v) :: pyDictInsert rest (k', v')

/-- Python `dict(pairs)`: fold the pairs into an insertion-ordered dict;
a repeated key keeps the value of its last occurrence. -/
def pyDict (ps : List (String × ℚ)) : List (String × ℚ) :=
  ps.foldl pyDictInsert []

/-- The order-book reshaping `PublicApiV2.get_orderbook` applies to one
side (`asks` or `bids`): `dict(zip(flat[::2], map(float, flat[1::2])))`.
`none` models the `ValueError` when a quantity string fails `float`. -/
def reshapeBook (flat : List String) : Option (List (String × ℚ)) :=
  ((odds flat).mapM pyFloat).map (fun vals => pyDict ((evens flat).zip vals))

/-! ## v2 candles -/

/-- `PublicApiV2.INTERVALS`. -/
def INTERVALS : List (String × Nat) :=
  [("MINUTE_1", 60), ("MINUTE_5", 300), ("MINUTE_10", 600), ("MINUTE_15", 900),
   ("MINUTE_30", 1800), ("HOUR_1", 3600), ("HOUR_2", 7200), ("HOUR_4", 14400),
   ("HOUR_6", 21600), ("HOUR_12", 43200), ("DAY_1", 86400), ("DAY_3", 3 * 86400),
   ("WEEK_1", 7 * 86400), ("MONTH_1", 30 * 86400)]

/-- A raw cell of the candle matrix as decoded from JSON: a number or a
string (the `interval` column holds strings such as `"MINUTE_5"`). -/
inductive CellVal where
  | num (q : ℚ)
  | str (s : String)
deriving DecidableEq

/-- A cell of the resulting table: float, integer (after `astype(int)`)
or string column values. -/
inductive OutCell where
  | num (q : ℚ)
  | int (z : Int)
  | str (s : String)
deriving DecidableEq

/-- The float cast `pd.DataFrame(..., dtype=float)` applies to a cell. -/
def toQ : CellVal → Option ℚ
  | .num q => some q
  | .str s => pyFloat s

/-- `astype(int)` on a float column: truncation toward zero. -/
def pyInt (q : ℚ) : Int := if q < 0 then ⌈q⌉ else ⌊q⌋

/-- The raw column names `get_candles` assigns positionally. -/
def rawColumns : List String :=
  ["low", "high", "open", "close", "amount", "quantity", "buyTakerAmount",
   "buyTakerQuantity", "tradeCount", "ts", "weightedAverage", "interval",
   "startTime", "closeTime"]

/-- The final column selection of `get_candles`. -/
def finalColumns : List String :=
  ["symbol", "low", "high", "open", "close", "amount", "quantity",
   "buyTakerAmount", "buyTakerQuantity", "sellTakerAmount",
   "sellTakerQuantity", "tradeCount", "weightedAverage", "interval",
   "startTime", "closeTime"]

/-- The final 16-column row `get_candles` produces, given the queried
`symbol`, the 13 float-cast numeric cells (raw `ts` excluded: it is cast
but then dropped by the final column selection) and the `interval` cell:
column names in the fixed final order, with the derived columns
`sellTakerAmount = amount - buyTakerAmount` and
`sellTakerQuantity = quantity - buyTakerQuantity`, and `tradeCount`,
`startTime`, `closeTime` cast via `astype(int)`. -/
def mkCandleRow (symbol : String)
    (lowQ highQ openQ closeQ amountQ quantityQ btaQ btqQ tcQ wavgQ stQ ctQ : ℚ)
    (ivOut : OutCell) : List (String × OutCell) :=
  [("symbol", OutCell.str symbol), ("low", OutCell.num lowQ), ("high", OutCell.num highQ),
   ("open", OutCell.num openQ), ("close", OutCell.num closeQ), ("amount", OutCell.num amountQ),
   ("quantity", OutCell.num quantityQ), ("buyTakerAmount", OutCell.num btaQ),
   ("buyTakerQuantity", OutCell.num btqQ), ("sellTakerAmount", OutCell.num (amountQ - btaQ)),
   ("sellTakerQuantity", OutCell.num (quantityQ - btqQ)), ("tradeCount", OutCell.int (pyInt tcQ)),
   ("weightedAverage", OutCell.num wavgQ), ("interval", ivOut),
   ("startTime", OutCell.int (pyInt stQ)), ("closeTime", OutCell.int (pyInt ctQ))]

/-- The per-row content of `PublicApiV2.get_candles` after `_execute`:
assign `rawColumns` positionally, cast to float (the `interval` column
cannot be cast and is left as delivered — pandas silently keeps a column
whose cast fails), derive the sell-side columns, cast the time/count
columns to integers, stamp the row with the queried `symbol`, and select
`finalColumns` in order (dropping `ts`).  `none` models the pandas error
on a row that is not a 14-element list of castable cells. -/
def buildCandleRow (symbol : String) (row : List CellVal) :
    Option (List (String × OutCell)) :=
  match row with
  | [low, high, open_, close_, amount, quantity, bta, btq, tc, ts, wavg, interval, st, ct] => do
    let lowQ ← toQ low
    let highQ ← toQ high
    let openQ ← toQ open_
    let closeQ ← toQ close_
    let amountQ ← toQ amount
    let quantityQ ← toQ quantity
    let btaQ ← toQ bta
    let btqQ ← toQ btq
    let tcQ ← toQ tc
    let tsQ ← toQ ts
    let wavgQ ← toQ wavg
    let stQ ← toQ st
    let ctQ ← toQ ct
    let ivOut := match toQ interval with
      | some q => OutCell.num q
      | none => match interval with
        | .str s => OutCell.str s
        | .num q => OutCell.num q
    let _tsI := pyInt tsQ  -- `ts` is cast like the other time columns but not selected
    some (mkCandleRow symbol lowQ highQ openQ closeQ amountQ quantityQ btaQ btqQ tcQ wavgQ stQ ctQ ivOut)
  | _ => none

/-- JSON → raw cell. -/
def cellOfJ : JVal → Option CellVal
  | .num q => some (.num q)
  | .str s => some (.str s)
  | _ => none

/-- The whole candle table built from the `_execute` response. -/
def candleFrame (symbol : String) (v : JVal) :
    Option (List (List (String × OutCell))) :=
  match v with
  | .arr rows => rows.mapM (fun r =>
      match r with
      | .arr cells => (cells.mapM cellOfJ).bind (buildCandleRow symbol)
      | _ => none)
  | _ => none

/-- `public_v2.py` `PublicApiV2.get_candles`: builds the request path —
with **no validation of `interval` against `INTERVALS`** — issues exactly
one request through `_execute`, and builds the candle table.  The first
component is the network-call log (the URLs fetched). -/
def get_candles (fetch : String → Except String JVal) (symbol interval : String)
    (limit : Int) (startTime endTime : Option Int) :
    List String × Except V2Err (Option (List (List (String × OutCell)))) :=
  let path := "/markets/" ++ symbol ++ "/candles?interval=" ++ interval ++
    "&limit=" ++ toString limit
  let path := match startTime with
    | some st => path ++ "&startTime=" ++ toString st
    | none => path
  let path := match endTime with
    | some et => path ++ "&endTime=" ++ toString et
    | none => path
  ([HOST ++ path], (executeV2 fetch path).map (candleFrame symbol))

/-! ## Trade-history pagination

The loops of `public.py` (`get_trade_history`, `get_trade_history_batch`)
and of `api.py` (`get_trade_history`).  The `execute` round-trip for the
`returnTradeHistory` command is abstracted into
`server : Nat → Int → Int → List Trade`: the page the server returns for
the `k`-th query (0-based) of a run, with the current `start` and `end`
(cursor) window; pagination state never leaks between calls, so the query
index fully determines a deterministic server's answer within a run.  The
`fuel` argument bounds the number of loop iterations still allowed —
Python has no such bound; `outOfFuel` means the loop is still running
after `fuel` iterations.  Every result carries the number of queries the
loop issued. -/

/-- A trade record: a mapping with a `"date"` field (`%Y-%m-%d %H:%M:%S`)
used as sort key and cursor source, plus the remaining exchange fields,
kept opaque. -/
structure Trade where
  date : String
  rest : List (String × String) := []
deriving DecidableEq, Repr

/-- Structural strict lexicographic comparison of character lists, the
order Python's `<` on `str` uses (code-point lexicographic).  Equivalent
to `List.Lex (· < ·)` (see `listLtB_iff` below) but defined by structural
recursion so that concrete runs reduce. -/
def listLtB : List Char → List Char → Bool
  | [], [] => false
  | [], _ :: _ => true
  | _ :: _, [] => false
  | a :: as', b :: bs' => if a < b then true else if b < a then false else listLtB as' bs'

/-- `a ≤ b` on strings, computably: `¬ b < a`. -/
def strLeb (a b : String) : Bool := !listLtB b.data a.data

/-- `response.sort(key=lambda x: x["date"], reverse=True)`: a stable sort,
descending by the raw `date` string.  Modelled by insertion sort (also
stable) with relation `b.date ≤ a.date`. -/
def sortPage (page : List Trade) : List Trade :=
  page.insertionSort (fun a b => strLeb b.date a.date = true)

/-- Result of the eager loop of `public.py`: collected trades and number
of queries issued. -/
inductive EagerRes where
  | ok (trades : List Trade) (queries : Nat)
  | parseError (queries : Nat)
  | outOfFuel (queries : Nat)
deriving DecidableEq, Repr

/-- `public.py` `PublicAPI.get_trade_history`, restricted to numeric
`start`/`end` (strings go through the date codec first).  Each iteration:
query, sort the page descending by date string; an empty page terminates;
otherwise accumulate the page, set the cursor to
`date_to_unix_ts_in_utc(page[-1]["date"]) - 1` and stop if it is `≤ start`
(`parseError` models the `ValueError` escaping when the date of the last
record does not parse). -/
def get_trade_history (server : Nat → Int → Int → List Trade) (start : Int) :
    Nat → Int → Nat → EagerRes
  | 0, _, _ => .outOfFuel 0
  | fuel + 1, cur, k =>
    match sortPage (server k start cur) with
    | [] => .ok [] 1
    | t0 :: rest =>
      match date_to_unix_ts_in_utc (((t0 :: rest).getLastD t0).date) with
      | none => .parseError 1
      | some e =>
        if e - 1 ≤ start then .ok (t0 :: rest) 1
        else
          match get_trade_history server start fuel (e - 1) (k + 1) with
          | .ok ts q => .ok ((t0 :: rest) ++ ts) (q + 1)
          | .parseError q => .parseError (q + 1)
          | .outOfFuel q => .outOfFuel (q + 1)

/-- Result of the lazy loop of `public.py`: the pages yielded so far are
observable even when the run ends in an error or runs out of fuel,
because the generator has already handed them to the consumer. -/
inductive BatchRes where
  | ok (pages : List (List Trade)) (queries : Nat)
  | parseError (pages : List (List Trade)) (queries : Nat)
  | outOfFuel (pages : List (List Trade)) (queries : Nat)
deriving DecidableEq, Repr

/-- `public.py` `PublicAPI.get_trade_history_batch`: same loop as the
eager variant but yielding each sorted page instead of accumulating. -/
def get_trade_history_batch (server : Nat → Int → Int → List Trade) (start : Int) :
    Nat → Int → Nat → BatchRes
  | 0, _, _ => .outOfFuel [] 0
  | fuel + 1, cur, k =>
    match sortPage (server k start cur) with
    | [] => .ok [] 1
    | t0 :: rest =>
      match date_to_unix_ts_in_utc (((t0 :: rest).getLastD t0).date) with
      | none => .parseError [t0 :: rest] 1
      | some e =>
        if e - 1 ≤ start then .ok [t0 :: rest] 1
        else
          match get_trade_history_batch server start fuel (e - 1) (k + 1) with
          | .ok ps q => .ok ((t0 :: rest) :: ps) (q + 1)
          | .parseError ps q => .parseError ((t0 :: rest) :: ps) (q + 1)
          | .outOfFuel ps q => .outOfFuel ((t0 :: rest) :: ps) (q + 1)

/-- `api.py` `PublicAPI.get_trade_history`: same eager loop but **without
the `end <= start` termination guard** — after a non-empty page the loop
always queries again with the decremented cursor; only an empty page
stops it.  (`api.py`'s date codec returns the timestamp as a float, the
same integral value.) -/
def get_trade_history_api (server : Nat → Int → Int → List Trade) (start : Int) :
    Nat → Int → Nat → EagerRes
  | 0, _, _ => .outOfFuel 0
  | fuel + 1, cur, k =>
    match sortPage (server k start cur) with
    | [] => .ok [] 1
    | t0 :: rest =>
      match date_to_unix_ts_in_utc (((t0 :: rest).getLastD t0).date) with
      | none => .parseError 1
      | some e =>
        match get_trade_history_api server start fuel (e - 1) (k + 1) with
        | .ok ts q => .ok ((t0 :: rest) ++ ts) (q + 1)
        | .parseError q => .parseError (q + 1)
        | .outOfFuel q => .outOfFuel (q + 1)

/-! ## Lexicographic order on civil timestamps

Chronological order of two civil timestamps, used to relate the string
order of rendered dates (the sort key of the pagination loops) to the
order of their epoch values. -/

/-- `u` is strictly earlier than `v`. -/
def civLt (u v : Civil) : Prop :=
  u.y < v.y ∨ (u.y = v.y ∧ (u.mo < v.mo ∨ (u.mo = v.mo ∧ (u.d < v.d ∨ (u.d = v.d ∧
    (u.h < v.h ∨ (u.h = v.h ∧ (u.mi < v.mi ∨ (u.mi = v.mi ∧ u.s < v.s)))))))))

instance : DecidableRel civLt := fun u v => by unfold civLt; infer_instance

/-! ## Concrete fixtures

Scripted servers and responses used to instantiate the theorems at
concrete inputs. -/

/-- A trade record with only its `date` field populated. -/
def tradeAt (ds : String) : Trade := ⟨ds, []⟩

/-- A server that always returns one trade at epoch second 100
(`"1970-01-01 00:01:40"`), regardless of the queried window. -/
def serverGuard : Nat → Int → Int → List Trade :=
  fun _ _ _ => [tradeAt "1970-01-01 00:01:40"]

/-- The scripted pages of the spec's eager-paginator example: a two-trade
page, a one-trade page, then an empty page. -/
def pagesScripted : List (List Trade) :=
  [[tradeAt "2021-01-03 00:00:00", tradeAt "2021-01-02 00:00:00"],
   [tradeAt "2021-01-01 00:00:00"], []]

/-- Query-indexed scripted server over `pagesScripted`. -/
def serverScripted : Nat → Int → Int → List Trade :=
  fun k _ _ => pagesScripted.getD k []

/-- A stale scripted server whose second page holds a trade **newer** than
the first page's trade (outside the queried window). -/
def pagesStale : List (List Trade) :=
  [[tradeAt "2021-01-02 00:00:00"], [tradeAt "2021-01-05 00:00:00"], []]

/-- Query-indexed scripted server over `pagesStale`. -/
def serverStale : Nat → Int → Int → List Trade :=
  fun k _ _ => pagesStale.getD k []

/-- A server that always returns an empty page. -/
def serverEmpty : Nat → Int → Int → List Trade := fun _ _ _ => []

/-- A JSON body carrying an `error` field, as the v1 endpoints return it. -/
def respErr : JVal := .obj [("error", .str "Invalid command.")]

/-- A fetch that answers every URL with `respErr`. -/
def fetchErrResp : String → Except String JVal := fun _ => .ok respErr

/-- A JSON body carrying a `code` field, as the v2 endpoints return it. -/
def respCode : JVal :=
  .obj [("code", .num 21600), ("message", .str "Invalid symbol.")]

/-- A fetch that answers every URL with `respCode`. -/
def fetchCodeResp : String → Except String JVal := fun _ => .ok respCode

/-- One raw candle row (14 numeric cells and an interval string). -/
def rawCandleJ : JVal :=
  .arr [.num 1, .num 2, .num 3, .num 4, .num 10, .num 2, .num 4,
    .num (1 / 2), .num 7, .num 1000, .num 5, .str "MINUTE_1",
    .num 100, .num 200]

/-- A fetch that answers every URL with a one-row candle matrix. -/
def fetchCandlesOk : String → Except String JVal := fun _ => .ok (.arr [rawCandleJ])

/-- A trade passes the window filter iff its date parses into `[s, c]`. -/
def inWindow (s c : Int) (t : Trade) : Bool :=
  match date_to_unix_ts_in_utc t.date with
  | some e => decide (s ≤ e ∧ e ≤ c)
  | none => false

/-- Three trades on consecutive days, newest first. -/
def tradesWindowed : List Trade :=
  [tradeAt "2021-01-03 00:00:00", tradeAt "2021-01-02 00:00:00",
   tradeAt "2021-01-01 00:00:00"]

/-- An honest server: it answers every query with the fixed trades that
fall inside the queried window. -/
def serverWindowed : Nat → Int → Int → List Trade :=
  fun _ s c => tradesWindowed.filter (inWindow s c)

/-- `listLtB` computes the lexicographic order `List.Lex (· < ·)`. -/
theorem listLtB_iff (as' bs' : List Char) :
    listLtB as' bs' = true ↔ List.Lex (· < ·) as' bs' := by
  induction as' generalizing bs' with
  | nil =>
    cases bs' with
    | nil => exact iff_of_false (by simp [listLtB]) (List.Lex.not_nil_right _ _)
    | cons b bs' => exact iff_of_true (by simp [listLtB]) List.Lex.nil
  | cons a as' ih =>
    cases bs' with
    | nil => exact iff_of_false (by simp [listLtB]) (List.Lex.not_nil_right _ _)
    | cons b bs' =>
      rw [listLtB]
      split_ifs with h1 h2
      · simp only [true_iff]
        exact List.Lex.rel h1
      · simp only [false_iff]
        intro hlex
        cases hlex with
        | rel h => exact h1 h
        | cons h => exact lt_irrefl _ h2
      · have hab : a = b := le_antisymm (le_of_not_lt h2) (le_of_not_lt h1)
        subst hab
        rw [ih bs']
        exact (List.Lex.cons_iff).symm

/-- `strLeb` computes `String ≤`. -/
theorem strLeb_iff (a b : String) : strLeb a b = true ↔ a ≤ b := by
  rw [strLeb, Bool.not_eq_true', ← Bool.not_eq_true]
  rw [listLtB_iff, String.le_iff_toList_le]
  show ¬ (b.toList < a.toList) ↔ a.toList ≤ b.toList
  exact not_lt

/-- **C1** (amended to `public.py`): in both pagination loops of
`public.py` — eager `get_trade_history` and lazy
`get_trade_history_batch` — from any loop state, if the query returns a
non-empty page and the new cursor `date_to_unix_ts_in_utc(page[-1]) - 1`
is `≤ start`, the loop terminates with exactly that page and issues no
further query (query count 1 from this iteration on). -/
theorem C1_cursor_guard_terminates (server : Nat → Int → Int → List Trade)
    (start cur : Int) (k fuel : Nat) (t0 : Trade) (rest : List Trade) (e : Int)
    (hpage : sortPage (server k start cur) = t0 :: rest)
    (hparse : date_to_unix_ts_in_utc (((t0 :: rest).getLastD t0).date) = some e)
    (hguard : e - 1 ≤ start) :
    get_trade_history server start (fuel + 1) cur k = .ok (t0 :: rest) 1 ∧
    get_trade_history_batch server start (fuel + 1) cur k = .ok [t0 :: rest] 1 := by
  constructor
  · rw [get_trade_history, hpage]
    dsimp only
    rw [hparse]
    dsimp only
    rw [if_pos hguard]
  · rw [get_trade_history_batch, hpage]
    dsimp only
    rw [hparse]
    dsimp only
    rw [if_pos hguard]

theorem C1_cursor_guard_terminates_witness :
    get_trade_history serverGuard 100 (3 + 1) 200 0 =
      .ok [tradeAt "1970-01-01 00:01:40"] 1 ∧
    get_trade_history_batch serverGuard 100 (3 + 1) 200 0 =
      .ok [[tradeAt "1970-01-01 00:01:40"]] 1 :=
  C1_cursor_guard_terminates serverGuard 100 200 0 3
    (tradeAt "1970-01-01 00:01:40") [] 100 (by decide) (by decide) (by decide)

/-- **C1** counterexample: `api.py`'s eager `get_trade_history` (also
named by the claim) has no cursor guard: with a server returning a page
whose new cursor `100 - 1 = 99` is `≤ start = 100` already at the first
iteration, the loop still issues a second query (two queries issued
within two iterations, loop still running). -/
theorem C1_api_no_guard_counterexample :
    date_to_unix_ts_in_utc
        (((tradeAt "1970-01-01 00:01:40") :: ([] : List Trade)).getLastD
          (tradeAt "1970-01-01 00:01:40")).date = some 100 ∧
    (100 : Int) - 1 ≤ 100 ∧
    get_trade_history_api serverGuard 100 2 200 0 = .outOfFuel 2 := by
  refine ⟨by decide, by decide, by decide⟩

/-- **C9**: if the very first query returns an empty page, the eager
paginator returns an empty collection and the lazy paginator yields zero
pages, both after exactly one query. -/
theorem C9_empty_first_page (server : Nat → Int → Int → List Trade)
    (start endTs : Int) (fuel : Nat) (h : server 0 start endTs = []) :
    get_trade_history server start (fuel + 1) endTs 0 = .ok [] 1 ∧
    get_trade_history_batch server start (fuel + 1) endTs 0 = .ok [] 1 := by
  have hs : sortPage (server 0 start endTs) = [] := by rw [h]; rfl
  constructor
  · rw [get_trade_history, hs]
  · rw [get_trade_history_batch, hs]

theorem C9_empty_first_page_witness :
    get_trade_history serverEmpty 0 (4 + 1) 1000 0 = .ok [] 1 ∧
    get_trade_history_batch serverEmpty 0 (4 + 1) 1000 0 = .ok [] 1 :=
  C9_empty_first_page serverEmpty 0 1000 4 rfl

/-- **C5** (amended to `public.py`'s `execute` and `public_v2.py`'s
`_execute`): when the parsed body carries the error-indicator field
(`'error'` for v1, `'code'` for v2), the executor raises the
server-error kind of its API error carrying the original command, and
never returns the body as a successful result.  (`api.py`'s `execute`,
also named by the claim, performs no such check — see the
counterexample.) -/
theorem C5_error_field_raises (fetch : String → Except String JVal)
    (command : String) (resp : JVal) :
    (fetch (PUBLIC_API_URL ++ command) = .ok resp → pyIn "error" resp = true →
      execute fetch command =
        .error (.serverError ((jGet resp "error").getD .null) command resp) ∧
      ∀ r, execute fetch command ≠ .ok r) ∧
    (fetch (HOST ++ command) = .ok resp → pyIn "code" resp = true →
      executeV2 fetch command =
        .error (.serverError command (jGet resp "code") (jGet resp "message")) ∧
      ∀ r, executeV2 fetch command ≠ .ok r) := by
  constructor
  · intro hf he
    have : execute fetch command =
        .error (.serverError ((jGet resp "error").getD .null) command resp) := by
      rw [execute, hf]
      dsimp only
      rw [if_pos he]
    exact ⟨this, fun r hr => by rw [this] at hr; exact Except.noConfusion hr⟩
  · intro hf hc
    have : executeV2 fetch command =
        .error (.serverError command (jGet resp "code") (jGet resp "message")) := by
      rw [executeV2, hf]
      dsimp only
      rw [if_pos hc]
    exact ⟨this, fun r hr => by rw [this] at hr; exact Except.noConfusion hr⟩

theorem C5_error_field_raises_witness :
    execute fetchErrResp "returnTicker" =
      .error (.serverError ((jGet respErr "error").getD .null) "returnTicker" respErr) ∧
    ∀ r, execute fetchErrResp "returnTicker" ≠ .ok r :=
  (C5_error_field_raises fetchErrResp "returnTicker" respErr).1 rfl rfl

/-- **C5** counterexample: `api.py`'s `execute` (cited by the claim as a
v1-style executor) returns a body containing an `'error'` field to the
caller as a successful result instead of raising. -/
theorem C5_api_counterexample :
    pyIn "error" respErr = true ∧
    executeApi fetchErrResp "returnTicker" = .ok respErr :=
  ⟨rfl, rfl⟩

/-- **C4** (amended to v1 `get_chartdata`): a period outside `PERIODS`
fails with the `bad_period` error before any network request (the
network-call log is empty); v2 `get_candles`, by contrast, performs no
client-side granularity validation and always issues exactly one request
(see the counterexample). -/
theorem C4_bad_period_no_request (fetch : String → Except String JVal)
    (currencyPair : String) (period start endTs : Int)
    (h : period ∉ PERIODS) :
    get_chartdata fetch currencyPair period start endTs =
      ([], .error (.badPeriod "returnChartData" period)) ∧
    ∀ (symbol interval : String) (limit : Int) (st et : Option Int),
      (get_candles fetch symbol interval limit st et).1.length = 1 := by
  constructor
  · rw [get_chartdata, if_pos h]
  · intro symbol interval limit st et
    cases st <;> cases et <;> rfl

theorem C4_bad_period_no_request_witness :
    get_chartdata fetchCandlesOk "USDT_BTC" 301 0 1000 =
      ([], .error (.badPeriod "returnChartData" 301)) ∧
    ∀ (symbol interval : String) (limit : Int) (st et : Option Int),
      (get_candles fetchCandlesOk symbol interval limit st et).1.length = 1 :=
  C4_bad_period_no_request fetchCandlesOk "USDT_BTC" 301 0 1000 (by decide)

/-- **C4** counterexample: v2 `get_candles` with the unsupported interval
`"MINUTE_2"` issues one network call (log length 1, not 0) and — the
scripted server answering normally — succeeds, instead of failing with
`bad_period` before any request. -/
theorem C4_candles_no_validation_counterexample :
    ("MINUTE_2" ∉ INTERVALS.map Prod.fst) ∧
    (get_candles fetchCandlesOk "BTC_USDT" "MINUTE_2" 100 none none).1.length = 1 ∧
    ∃ frame, (get_candles fetchCandlesOk "BTC_USDT" "MINUTE_2" 100 none none).2 =
      .ok frame ∧ frame.isSome :=
  ⟨by decide, rfl, ⟨_, rfl, rfl⟩⟩

/-- **C8**: the candle builder derives `sellTakerAmount` and
`sellTakerQuantity` by row-wise subtraction, casts `tradeCount`,
`startTime`, `closeTime` (and the dropped raw `ts`) to integers, stamps
the queried symbol, and returns exactly the fixed column set in its fixed
order; every produced row's column names are `finalColumns`; at
`amount = 10, buyTakerAmount = 4` the derived `sellTakerAmount` is `6`,
and at `quantity = 2, buyTakerQuantity = 0.5` the derived
`sellTakerQuantity` is `1.5`. -/
theorem C8_candle_columns (symbol iv : String)
    (low high open_ close_ amount quantity bta btq tc ts wavg st ct : ℚ)
    (hiv : pyFloat iv = none) :
    buildCandleRow symbol
      [.num low, .num high, .num open_, .num close_, .num amount, .num quantity,
       .num bta, .num btq, .num tc, .num ts, .num wavg, .str iv, .num st, .num ct] =
      some [("symbol", OutCell.str symbol), ("low", OutCell.num low),
        ("high", OutCell.num high), ("open", OutCell.num open_),
        ("close", OutCell.num close_), ("amount", OutCell.num amount),
        ("quantity", OutCell.num quantity), ("buyTakerAmount", OutCell.num bta),
        ("buyTakerQuantity", OutCell.num btq),
        ("sellTakerAmount", OutCell.num (amount - bta)),
        ("sellTakerQuantity", OutCell.num (quantity - btq)),
        ("tradeCount", OutCell.int (pyInt tc)),
        ("weightedAverage", OutCell.num wavg), ("interval", OutCell.str iv),
        ("startTime", OutCell.int (pyInt st)), ("closeTime", OutCell.int (pyInt ct))] ∧
    (∀ (sym : String) (a b c d e f g h i j k l : ℚ) (ivo : OutCell),
      (mkCandleRow sym a b c d e f g h i j k l ivo).map Prod.fst = finalColumns) ∧
    candleFrame "BTC_USDT" (.arr [rawCandleJ]) =
      some [[("symbol", OutCell.str "BTC_USDT"), ("low", OutCell.num 1),
        ("high", OutCell.num 2), ("open", OutCell.num 3), ("close", OutCell.num 4),
        ("amount", OutCell.num 10), ("quantity", OutCell.num 2),
        ("buyTakerAmount", OutCell.num 4), ("buyTakerQuantity", OutCell.num (1 / 2)),
        ("sellTakerAmount", OutCell.num 6), ("sellTakerQuantity", OutCell.num (3 / 2)),
        ("tradeCount", OutCell.int 7), ("weightedAverage", OutCell.num 5),
        ("interval", OutCell.str "MINUTE_1"), ("startTime", OutCell.int 100),
        ("closeTime", OutCell.int 200)]] := by
  refine ⟨?_, fun _ _ _ _ _ _ _ _ _ _ _ _ _ _ => rfl, ?_⟩
  · rw [buildCandleRow]
    dsimp only [toQ, Option.bind_eq_bind, Option.some_bind]
    rw [hiv]
    rfl
  · have h1 : candleFrame "BTC_USDT" (JVal.arr [rawCandleJ]) =
        some [mkCandleRow "BTC_USDT" 1 2 3 4 10 2 4 (1 / 2) 7 5 100 200
          (OutCell.str "MINUTE_1")] := rfl
    rw [h1, mkCandleRow]
    norm_num [pyInt]

theorem C8_candle_columns_witness :
    buildCandleRow "USDT_BTC"
      [.num 1, .num 2, .num 3, .num 4, .num 10, .num 2,
       .num 4, .num (1 / 2), .num 7, .num 1000, .num 5, .str "MINUTE_1",
       .num 100, .num 200] =
      some [("symbol", OutCell.str "USDT_BTC"), ("low", OutCell.num 1),
        ("high", OutCell.num 2), ("open", OutCell.num 3),
        ("close", OutCell.num 4), ("amount", OutCell.num 10),
        ("quantity", OutCell.num 2), ("buyTakerAmount", OutCell.num 4),
        ("buyTakerQuantity", OutCell.num (1 / 2)),
        ("sellTakerAmount", OutCell.num (10 - 4)),
        ("sellTakerQuantity", OutCell.num (2 - 1 / 2)),
        ("tradeCount", OutCell.int (pyInt 7)),
        ("weightedAverage", OutCell.num 5), ("interval", OutCell.str "MINUTE_1"),
        ("startTime", OutCell.int (pyInt 100)), ("closeTime", OutCell.int (pyInt 200))] :=
  (C8_candle_columns "USDT_BTC" "MINUTE_1" 1 2 3 4 10 2 4 (1 / 2) 7 1000 5 100 200
    (by decide)).1

/-- `l[::2]` and `l[1::2]` pick exactly the even- and odd-indexed
elements. -/
theorem evens_odds_get? {α : Type} (l : List α) :
    ∀ i, (evens l).get? i = l.get? (2 * i) ∧ (odds l).get? i = l.get? (2 * i + 1) := by
  induction l with
  | nil => intro i; constructor <;> simp [evens, odds]
  | cons a l ih =>
    intro i
    constructor
    · cases i with
      | zero => simp [evens]
      | succ j =>
        rw [evens]
        have h2 : 2 * (j + 1) = 2 * j + 1 + 1 := by omega
        rw [h2]
        simpa using (ih j).2
    · rw [odds]
      have h2 : 2 * i + 1 = 2 * i + 1 := rfl
      simpa using (ih i).1

/-- **C7**: the v2 order-book reshaping maps a flat interleaved list to
the dict zipping even-indexed elements (keys) with the float-cast
odd-indexed elements (values); in particular
`["100.0","5","99.5","3"]` yields `{"100.0": 5.0, "99.5": 3.0}`. -/
theorem C7_orderbook_reshape (flat : List String) (vals : List ℚ)
    (h : (odds flat).mapM pyFloat = some vals) :
    reshapeBook flat = some (pyDict ((evens flat).zip vals)) ∧
    (∀ i, (evens flat).get? i = flat.get? (2 * i) ∧
      (odds flat).get? i = flat.get? (2 * i + 1)) ∧
    reshapeBook ["100.0", "5", "99.5", "3"] =
      some [("100.0", 5), ("99.5", 3)] := by
  refine ⟨by rw [reshapeBook, h]; rfl, evens_odds_get? flat, ?_⟩
  have h1 : reshapeBook ["100.0", "5", "99.5", "3"] =
      some (pyDict [("100.0", ((5 : Nat) : ℚ)), ("99.5", ((3 : Nat) : ℚ))]) := rfl
  rw [h1]
  norm_num [pyDict, pyDictInsert]
  decide

theorem C7_orderbook_reshape_witness :
    reshapeBook ["100.0", "5", "99.5", "3"] =
      some (pyDict ((evens ["100.0", "5", "99.5", "3"]).zip
        [((5 : Nat) : ℚ), ((3 : Nat) : ℚ)])) :=
  (C7_orderbook_reshape ["100.0", "5", "99.5", "3"]
    [((5 : Nat) : ℚ), ((3 : Nat) : ℚ)] rfl).1

/-- **C6** counterexample: the literal composition
`unix_ts_to_date(date_to_unix_ts_in_utc(s))` of the two v2 codec
functions does not reproduce `s` at second precision: the parser returns
epoch milliseconds while the formatter consumes epoch seconds, so
`"1970-01-01 00:00:01"` (epoch 1 s = 1000 ms) formats as
`"1970-01-01 00:16:40.000000"` (epoch 1000 s). -/
theorem C6_ms_vs_s_counterexample :
    (date_to_unix_ts_in_utc_v2 "1970-01-01 00:00:01").bind unix_ts_to_date =
      some "1970-01-01 00:16:40.000000" ∧
    "1970-01-01 00:16:40.000000" ≠ "1970-01-01 00:00:01" ++ ".000000" := by
  refine ⟨by decide, by decide⟩

/-- **C10** counterexample: with odd-length flat input `["a","1","b"]` the
trailing even-indexed price `"b"` is dropped entirely, so the mapping does
**not** have one entry per distinct even-indexed price. -/
theorem C10_trailing_key_counterexample :
    reshapeBook ["a", "1", "b"] = some [("a", ((1 : Nat) : ℚ))] ∧
    "b" ∈ evens ["a", "1", "b"] ∧
    (pyDict ((evens ["a", "1", "b"]).zip [((1 : Nat) : ℚ)])).lookup "b" = none := by
  refine ⟨rfl, by decide, rfl⟩

/-- **C3** counterexample: for a scripted server whose second page holds a
trade newer than the first page's (a stale page outside the shrunken
window), the eager result is **not** descending by date, refuting the
universally-quantified ordering conjunct of the claim. -/
theorem C3_stale_page_counterexample :
    get_trade_history serverStale 0 10 1700000000 0 =
      .ok [tradeAt "2021-01-02 00:00:00", tradeAt "2021-01-05 00:00:00"] 3 ∧
    ¬ List.Chain' (fun a b : Trade => b.date ≤ a.date)
      [tradeAt "2021-01-02 00:00:00", tradeAt "2021-01-05 00:00:00"] := by
  refine ⟨by decide, fun h => absurd ((strLeb_iff _ _).mpr (List.chain'_cons.mp h).1) (by decide)⟩

/-- `getLastD` picks an element of the default-extended list. -/
theorem getLastD_mem_cons {α : Type} (l : List α) (a : α) : l.getLastD a ∈ a :: l := by
  induction l generalizing a with
  | nil => simp [List.getLastD]
  | cons b l ih =>
    rw [List.getLastD_cons]
    exact List.mem_cons_of_mem a (ih b)

/-- Membership transfers through `sortPage`. -/
theorem mem_of_mem_sortPage {t : Trade} {page : List Trade}
    (h : t ∈ sortPage page) : t ∈ page :=
  (List.perm_insertionSort _ page).subset h

/-- Under the window precondition, both `public.py` loops reach a normal
result (no fuel exhaustion, no parse error) given fuel exceeding the
window width: the cursor `cur` strictly decreases each iteration while
staying `> start` until the empty-page or cursor-guard exit fires. -/
theorem pagination_ok_aux (server : Nat → Int → Int → List Trade) (start : Int)
    (H : ∀ k s c, ∀ t ∈ server k s c,
      ∃ e, date_to_unix_ts_in_utc t.date = some e ∧ s ≤ e ∧ e ≤ c) :
    ∀ fuel cur k, (cur - start).toNat < fuel →
      (∃ ts q, get_trade_history server start fuel cur k = .ok ts q) ∧
      (∃ ps q, get_trade_history_batch server start fuel cur k = .ok ps q) := by
  intro fuel
  induction fuel with
  | zero => intro cur k h; exact absurd h (Nat.not_lt_zero _)
  | succ fuel ih =>
    intro cur k h
    cases hp : sortPage (server k start cur) with
    | nil =>
      constructor
      · exact ⟨[], 1, by rw [get_trade_history, hp]⟩
      · exact ⟨[], 1, by rw [get_trade_history_batch, hp]⟩
    | cons t0 rest =>
      have hmem : (t0 :: rest).getLastD t0 ∈ server k start cur := by
        apply mem_of_mem_sortPage
        rw [hp, List.getLastD_cons]
        exact getLastD_mem_cons rest t0
      obtain ⟨e, hpe, hse, hec⟩ := H k start cur _ hmem
      by_cases hg : e - 1 ≤ start
      · constructor
        · refine ⟨t0 :: rest, 1, ?_⟩
          rw [get_trade_history, hp]
          dsimp only
          rw [hpe]
          dsimp only
          rw [if_pos hg]
        · refine ⟨[t0 :: rest], 1, ?_⟩
          rw [get_trade_history_batch, hp]
          dsimp only
          rw [hpe]
          dsimp only
          rw [if_pos hg]
      · have hlt : (e - 1 - start).toNat < fuel := by omega
        obtain ⟨⟨ts, q, hts⟩, ⟨ps, q', hps⟩⟩ := ih (e - 1) (k + 1) hlt
        constructor
        · refine ⟨(t0 :: rest) ++ ts, q + 1, ?_⟩
          rw [get_trade_history, hp]
          dsimp only
          rw [hpe]
          dsimp only
          rw [if_neg hg, hts]
        · refine ⟨(t0 :: rest) :: ps, q' + 1, ?_⟩
          rw [get_trade_history_batch, hp]
          dsimp only
          rw [hpe]
          dsimp only
          rw [if_neg hg, hps]

/-- **C2**: under the precondition that every returned non-empty page
holds only trades with parseable dates inside the queried window
`[start, cursor]`, both `public.py` pagination loops terminate: the
cursor decreases by at least one second per iteration and is bounded
below by `start`, so any fuel exceeding the window width
`(end - start).toNat` suffices for the run to end normally (empty page or
cursor guard) after finitely many queries. -/
theorem C2_pagination_terminates (server : Nat → Int → Int → List Trade)
    (start endTs : Int)
    (H : ∀ k s c, ∀ t ∈ server k s c,
      ∃ e, date_to_unix_ts_in_utc t.date = some e ∧ s ≤ e ∧ e ≤ c)
    (fuel : Nat) (hfuel : (endTs - start).toNat < fuel) :
    (∃ ts q, get_trade_history server start fuel endTs 0 = .ok ts q) ∧
    (∃ ps q, get_trade_history_batch server start fuel endTs 0 = .ok ps q) :=
  pagination_ok_aux server start H fuel endTs 0 hfuel

theorem C2_pagination_terminates_witness :
    (∃ ts q, get_trade_history serverEmpty 0 6 5 0 = .ok ts q) ∧
    (∃ ps q, get_trade_history_batch serverEmpty 0 6 5 0 = .ok ps q) :=
  C2_pagination_terminates serverEmpty 0 5 (fun _ _ _ t ht => absurd ht (by simp [serverEmpty]))
    6 (by decide)

/-- Two-step list induction. -/
theorem pair_induction {α : Type} (P : List α → Prop) (h0 : P []) (h1 : ∀ a, P [a])
    (h2 : ∀ a b l, P l → P (a :: b :: l)) : ∀ l, P l := by
  intro l
  generalize hn : l.length = n
  induction n using Nat.strong_induction_on generalizing l with
  | _ n ih =>
    cases l with
    | nil => exact h0
    | cons a l' =>
      cases l' with
      | nil => exact h1 a
      | cons b l'' =>
        refine h2 a b l'' (ih l''.length ?_ l'' rfl)
        simp only [List.length_cons] at hn
        omega

/-- Lengths of the even/odd slices. -/
theorem length_evens_odds {α : Type} :
    ∀ l : List α, (evens l).length = (l.length + 1) / 2 ∧ (odds l).length = l.length / 2 := by
  refine pair_induction _ (by simp [evens, odds]) (fun a => by simp [evens, odds]) ?_
  intro a b l ih
  show (a :: odds (b :: l)).length = _ ∧ (evens (b :: l)).length = _
  rw [odds, evens]
  simp only [List.length_cons]
  omega

/-- Appending one element to an even-length list extends the even slice
and leaves the odd slice unchanged. -/
theorem evens_odds_append_single {α : Type} :
    ∀ (l : List α), l.length % 2 = 0 → ∀ x,
      evens (l ++ [x]) = evens l ++ [x] ∧ odds (l ++ [x]) = odds l := by
  refine pair_induction _ (fun _ x => by simp [evens, odds]) (fun a h => by simp at h) ?_
  intro a b l ih h x
  simp only [List.length_cons] at h
  have hl : l.length % 2 = 0 := by omega
  obtain ⟨he, ho⟩ := ih hl x
  constructor
  · show evens (a :: b :: (l ++ [x])) = _
    rw [evens, odds, he]
    rfl
  · show odds (a :: b :: (l ++ [x])) = _
    rw [odds, evens, ho]
    rfl

/-- `zip` ignores a trailing unpaired element on the left. -/
theorem zip_append_single_right {α β : Type} :
    ∀ (l : List α) (r : List β) (x : α), r.length ≤ l.length →
      (l ++ [x]).zip r = l.zip r := by
  intro l
  induction l with
  | nil =>
    intro r x h
    cases r with
    | nil => rfl
    | cons b r => simp at h
  | cons a l ih =>
    intro r x h
    cases r with
    | nil => simp
    | cons b r =>
      simp only [List.cons_append, List.zip_cons_cons, List.cons.injEq, true_and]
      exact ih r x (by simpa using h)

/-- A successful `mapM` preserves length. -/
theorem mapM_some_length {α β : Type} (f : α → Option β) :
    ∀ (l : List α) (r : List β), l.mapM f = some r → r.length = l.length := by
  intro l
  induction l with
  | nil =>
    intro r h
    simp only [List.mapM_nil, pure, Option.some.injEq] at h
    simp [← h]
  | cons a l ih =>
    intro r h
    rw [List.mapM_cons] at h
    simp only [Option.bind_eq_bind, Option.bind_eq_some, Option.some.injEq, pure] at h
    obtain ⟨b, hb, bs, hbs, rfl⟩ := h
    simp [ih bs hbs]

/-- Unfolding of association-list lookup on a cons cell. -/
theorem lookup_cons (key a : String) (b : ℚ) (rest : List (String × ℚ)) :
    List.lookup key ((a, b) :: rest) = if key = a then some b else List.lookup key rest := by
  by_cases h : key = a
  · subst h
    simp [List.lookup]
  · have hb : (key == a) = false := beq_eq_false_iff_ne.mpr h
    simp [List.lookup, hb, h]

/-- Inserting into a Python dict grows it by at most one entry. -/
theorem pyDictInsert_length_le (d : List (String × ℚ)) (p : String × ℚ) :
    (pyDictInsert d p).length ≤ d.length + 1 := by
  induction d with
  | nil => simp [pyDictInsert]
  | cons q rest ih =>
    obtain ⟨a, b⟩ := q
    obtain ⟨k, v⟩ := p
    rw [pyDictInsert]
    split_ifs with h
    · simp
    · simpa using ih

/-- Lookup after a dict insertion: the inserted key maps to the new
value, all other keys are untouched. -/
theorem pyDictInsert_lookup (d : List (String × ℚ)) (k k' : String) (v : ℚ) :
    (pyDictInsert d (k, v)).lookup k' = if k' = k then some v else d.lookup k' := by
  induction d with
  | nil =>
    rw [pyDictInsert]
    rw [lookup_cons]
  | cons q rest ih =>
    obtain ⟨a, b⟩ := q
    rw [pyDictInsert]
    by_cases hak : a = k
    · rw [if_pos hak]
      subst hak
      rw [lookup_cons, lookup_cons]
      by_cases hk : k' = a <;> simp [hk]
    · rw [if_neg hak, lookup_cons, ih, lookup_cons]
      by_cases hk : k' = a
      · subst hk
        rw [if_pos rfl, if_neg hak, if_pos rfl]
      · rw [if_neg hk, if_neg hk]

/-- Keys after a dict insertion: unchanged for a present key, appended
for a fresh one. -/
theorem pyDictInsert_keys (d : List (String × ℚ)) (k : String) (v : ℚ) :
    (pyDictInsert d (k, v)).map Prod.fst =
      if k ∈ d.map Prod.fst then d.map Prod.fst else d.map Prod.fst ++ [k] := by
  induction d with
  | nil => simp [pyDictInsert]
  | cons q rest ih =>
    obtain ⟨a, b⟩ := q
    rw [pyDictInsert]
    by_cases hak : a = k
    · rw [if_pos hak]
      subst hak
      simp
    · rw [if_neg hak]
      simp only [List.map_cons]
      by_cases hmem : k ∈ rest.map Prod.fst
      · rw [ih, if_pos hmem, if_pos (by simp [hmem])]
      · rw [ih, if_neg hmem,
          if_neg (by simp only [List.mem_cons]; push_neg; exact ⟨fun h => hak h.symm, hmem⟩)]
        simp

/-- `dict(ps ++ [p])` is an insertion into `dict(ps)`. -/
theorem pyDict_snoc (ps : List (String × ℚ)) (p : String × ℚ) :
    pyDict (ps ++ [p]) = pyDictInsert (pyDict ps) p := by
  simp [pyDict, List.foldl_append]

/-- The dict has at most one entry per input pair. -/
theorem pyDict_length_le : ∀ ps : List (String × ℚ), (pyDict ps).length ≤ ps.length := by
  have aux : ∀ (ps acc : List (String × ℚ)),
      (ps.foldl pyDictInsert acc).length ≤ acc.length + ps.length := by
    intro ps
    induction ps with
    | nil => simp
    | cons p ps ih =>
      intro acc
      calc ((p :: ps).foldl pyDictInsert acc).length
          = (ps.foldl pyDictInsert (pyDictInsert acc p)).length := by rw [List.foldl_cons]
        _ ≤ (pyDictInsert acc p).length + ps.length := ih _
        _ ≤ (acc.length + 1) + ps.length := by
            have := pyDictInsert_length_le acc p
            omega
        _ = acc.length + (p :: ps).length := by simp [List.length_cons]; omega
  intro ps
  simpa using aux ps []

/-- Dict lookup returns the value of the **last** occurrence of a key in
the input pair list (later pairs overwrite earlier ones). -/
theorem pyDict_lookup_last : ∀ (ps : List (String × ℚ)) (key : String),
    (pyDict ps).lookup key = ps.reverse.lookup key := by
  intro ps
  induction ps using List.reverseRecOn with
  | nil => intro key; rfl
  | append_singleton ps p ih =>
    intro key
    obtain ⟨k, v⟩ := p
    rw [pyDict_snoc, pyDictInsert_lookup, List.reverse_append]
    simp only [List.reverse_cons, List.reverse_nil, List.nil_append, List.singleton_append]
    rw [lookup_cons, ih key]

/-- Dict keys: no duplicates, and a key is present iff it occurs in the
input pairs. -/
theorem pyDict_keys : ∀ ps : List (String × ℚ),
    ((pyDict ps).map Prod.fst).Nodup ∧
    ∀ key, (key ∈ (pyDict ps).map Prod.fst ↔ key ∈ ps.map Prod.fst) := by
  intro ps
  induction ps using List.reverseRecOn with
  | nil => exact ⟨List.nodup_nil, by simp [pyDict]⟩
  | append_singleton ps p ih =>
    obtain ⟨hnd, hmem⟩ := ih
    obtain ⟨k, v⟩ := p
    rw [pyDict_snoc, pyDictInsert_keys]
    constructor
    · split_ifs with h
      · exact hnd
      · simp only [List.nodup_append, List.nodup_cons, List.not_mem_nil, not_false_iff,
          List.nodup_nil, true_and, and_true]
        refine ⟨hnd, ?_⟩
        intro a ha hk
        simp only [List.mem_singleton] at hk
        exact h (hk ▸ ha)
    · intro key
      split_ifs with h
      · rw [hmem key]
        simp only [List.map_append, List.mem_append, List.map_cons, List.map_nil,
          List.mem_singleton]
        constructor
        · exact Or.inl
        · rintro (hl | rfl)
          · exact hl
          · exact (hmem _).mp h
      · simp only [List.mem_append, List.map_append, List.mem_singleton, hmem key,
          List.map_cons, List.map_nil]

/-- **C10** (amended): the reshaped order-book mapping has at most
`⌊n/2⌋` entries; on odd-length input the unpaired trailing element is
dropped (reshaping the list and reshaping it without its last element
agree); dict lookup returns the value paired with the **last paired**
occurrence of a key; and the mapping's keys are duplicate-free and are
exactly the keys occurring among the zipped (paired) pairs — the
trailing even-indexed price of an odd-length list gets no entry. -/
theorem C10_dict_semantics (flat : List String) (vals : List ℚ)
    (h : (odds flat).mapM pyFloat = some vals) :
    (pyDict ((evens flat).zip vals)).length ≤ flat.length / 2 ∧
    (flat.length % 2 = 1 → reshapeBook flat = reshapeBook flat.dropLast) ∧
    (∀ (ps : List (String × ℚ)) (key : String),
      (pyDict ps).lookup key = ps.reverse.lookup key) ∧
    (∀ ps : List (String × ℚ), ((pyDict ps).map Prod.fst).Nodup ∧
      ∀ key, (key ∈ (pyDict ps).map Prod.fst ↔ key ∈ ps.map Prod.fst)) := by
  refine ⟨?_, ?_, pyDict_lookup_last, pyDict_keys⟩
  · calc (pyDict ((evens flat).zip vals)).length
        ≤ ((evens flat).zip vals).length := pyDict_length_le _
      _ ≤ vals.length := by rw [List.length_zip]; exact min_le_right _ _
      _ = (odds flat).length := mapM_some_length pyFloat _ _ h
      _ = flat.length / 2 := (length_evens_odds flat).2
  · intro hodd
    have hne : flat ≠ [] := by
      intro hh
      rw [hh] at hodd
      simp at hodd
    have hsplit : flat.dropLast ++ [flat.getLast hne] = flat :=
      List.dropLast_append_getLast hne
    have hlen : flat.dropLast.length % 2 = 0 := by
      have h1 : flat.dropLast.length = flat.length - 1 := List.length_dropLast flat
      have h2 : flat.length ≠ 0 := fun hh => hne (List.length_eq_zero.mp hh)
      omega
    obtain ⟨he, ho⟩ := evens_odds_append_single flat.dropLast hlen (flat.getLast hne)
    conv_lhs => rw [← hsplit]
    rw [reshapeBook, reshapeBook, he, ho]
    cases hm : (odds flat.dropLast).mapM pyFloat with
    | none => rfl
    | some vs =>
      have hvs : vs.length = (odds flat.dropLast).length := mapM_some_length pyFloat _ _ hm
      have hle : vs.length ≤ (evens flat.dropLast).length := by
        rw [hvs, (length_evens_odds flat.dropLast).1, (length_evens_odds flat.dropLast).2]
        omega
      rw [Option.map_some', Option.map_some',
        zip_append_single_right (evens flat.dropLast) vs (flat.getLast hne) hle]

theorem C10_dict_semantics_witness :
    reshapeBook ["a", "1", "b"] = reshapeBook (["a", "1", "b"].dropLast) :=
  (C10_dict_semantics ["a", "1", "b"] [((1 : Nat) : ℚ)] rfl).2.1 rfl

theorem char_toNat_of_isDigit {c : Char} (h : c.isDigit = true) :
    48 ≤ c.toNat ∧ c.toNat ≤ 57 := by
  simp only [Char.isDigit, Bool.and_eq_true, decide_eq_true_eq] at h
  obtain ⟨h1, h2⟩ := h
  constructor
  · exact h1
  · exact h2

theorem digitChar_digitVal {c : Char} (h : c.isDigit = true) :
    digitChar (digitVal c) = c := by
  obtain ⟨h1, h2⟩ := char_toNat_of_isDigit h
  rw [digitChar, digitVal]
  rw [show 48 + (c.toNat - 48) = c.toNat by omega]
  exact Char.ofNat_toNat c

theorem digitVal_le {c : Char} (h : c.isDigit = true) : digitVal c ≤ 9 := by
  obtain ⟨h1, h2⟩ := char_toNat_of_isDigit h
  rw [digitVal]
  omega

theorem pad4_digits (a b c d : Nat) (ha : a ≤ 9) (hb : b ≤ 9) (hc : c ≤ 9) (hd : d ≤ 9) :
    pad4 (1000 * a + 100 * b + 10 * c + d) =
      [digitChar a, digitChar b, digitChar c, digitChar d] := by
  rw [pad4,
    show (1000 * a + 100 * b + 10 * c + d) / 1000 % 10 = a by omega,
    show (1000 * a + 100 * b + 10 * c + d) / 100 % 10 = b by omega,
    show (1000 * a + 100 * b + 10 * c + d) / 10 % 10 = c by omega,
    show (1000 * a + 100 * b + 10 * c + d) % 10 = d by omega]

theorem pad2_digits (a b : Nat) (ha : a ≤ 9) (hb : b ≤ 9) :
    pad2 (10 * a + b) = [digitChar a, digitChar b] := by
  rw [pad2,
    show (10 * a + b) / 10 % 10 = a by omega,
    show (10 * a + b) % 10 = b by omega]

set_option maxHeartbeats 2000000 in
theorem yoe_rec (yoe doy D : Nat) (h1 : yoe ≤ 399)
    (h2 : doy ≤ 364 ∨ (doy = 365 ∧ ((yoe + 1) % 4 = 0 ∧ (yoe + 1) % 100 ≠ 0 ∨ yoe = 399)))
    (hD : D = yoe * 365 + yoe / 4 - yoe / 100 + doy) :
    (D - D / 1460 + D / 36524 - D / 146096) / 365 = yoe := by
  have hdoy365 : doy ≤ 365 := by omega
  have hD2 : D = 36524 * (yoe / 100) + 365 * (yoe % 100) + yoe % 100 / 4 + doy := by omega
  clear hD
  have hc : yoe / 100 ≤ 3 := by omega
  have hq1 : D / 1460 = 25 * (yoe / 100) + yoe % 100 / 4 +
      (24 * (yoe / 100) + 365 * (yoe % 100 % 4) + yoe % 100 / 4 + doy) / 1460 := by omega
  have hR : (24 * (yoe / 100) + 365 * (yoe % 100 % 4) + yoe % 100 / 4 + doy) / 1460 ≤ 1 := by
    omega
  have hef : D / 146096 ≤ D / 36524 := by omega
  have hq2 : D / 36524 - D / 146096 = yoe / 100 := by
    rcases h2 with h2 | ⟨hdoy', hleap | h399⟩
    · have hT : 365 * (yoe % 100) + yoe % 100 / 4 + doy ≤ 36523 := by omega
      have he : D / 36524 = yoe / 100 := by omega
      have hf : D / 146096 = 0 := by omega
      omega
    · have hr : yoe % 100 ≤ 95 := by omega
      have hT : 365 * (yoe % 100) + yoe % 100 / 4 + doy ≤ 36523 := by omega
      have he : D / 36524 = yoe / 100 := by omega
      have hf : D / 146096 = 0 := by omega
      omega
    · omega
  omega

set_option maxHeartbeats 2000000 in
theorem marchRoundTrip (yy mp d : Nat) (hmp : mp ≤ 11) (hd1 : 1 ≤ d)
    (hub : (153 * mp + 2) / 5 + d - 1 < (153 * (mp + 1) + 2) / 5)
    (hdoy : (153 * mp + 2) / 5 + d - 1 ≤ 364 ∨
      ((153 * mp + 2) / 5 + d - 1 = 365 ∧
        ((yy + 1) % 4 = 0 ∧ (yy + 1) % 100 ≠ 0 ∨ (yy + 1) % 400 = 0)))
    (hpos : 1 ≤ yy ∨ 10 ≤ mp) :
    civilFromDays (yy / 400 * 146097 +
        (yy % 400 * 365 + yy % 400 / 4 - yy % 400 / 100 + ((153 * mp + 2) / 5 + d - 1)) - 306) =
      (if mp < 10 then (yy, mp + 3, d) else (yy + 1, mp - 9, d)) := by
  have hdoelt : yy % 400 * 365 + yy % 400 / 4 - yy % 400 / 100 + ((153 * mp + 2) / 5 + d - 1) <
      146097 := by omega
  rw [civilFromDays]
  have hz : yy / 400 * 146097 +
      (yy % 400 * 365 + yy % 400 / 4 - yy % 400 / 100 + ((153 * mp + 2) / 5 + d - 1)) - 306 + 306 =
      yy / 400 * 146097 +
      (yy % 400 * 365 + yy % 400 / 4 - yy % 400 / 100 + ((153 * mp + 2) / 5 + d - 1)) := by omega
  rw [hz]
  have hdiv : (yy / 400 * 146097 +
      (yy % 400 * 365 + yy % 400 / 4 - yy % 400 / 100 + ((153 * mp + 2) / 5 + d - 1))) / 146097 =
      yy / 400 := by omega
  have hmod : (yy / 400 * 146097 +
      (yy % 400 * 365 + yy % 400 / 4 - yy % 400 / 100 + ((153 * mp + 2) / 5 + d - 1))) % 146097 =
      yy % 400 * 365 + yy % 400 / 4 - yy % 400 / 100 + ((153 * mp + 2) / 5 + d - 1) := by omega
  rw [hdiv, hmod]
  have hyoe := yoe_rec (yy % 400) ((153 * mp + 2) / 5 + d - 1)
    (yy % 400 * 365 + yy % 400 / 4 - yy % 400 / 100 + ((153 * mp + 2) / 5 + d - 1))
    (by omega) (by omega) rfl
  rw [hyoe]
  have hdoy2 : yy % 400 * 365 + yy % 400 / 4 - yy % 400 / 100 + ((153 * mp + 2) / 5 + d - 1) -
      (365 * (yy % 400) + yy % 400 / 4 - yy % 400 / 100) = (153 * mp + 2) / 5 + d - 1 := by omega
  rw [hdoy2]
  have hmp2 : (5 * ((153 * mp + 2) / 5 + d - 1) + 2) / 153 = mp := by omega
  rw [hmp2]
  have hd2 : (153 * mp + 2) / 5 + d - 1 - (153 * mp + 2) / 5 + 1 = d := by omega
  rw [hd2]
  split_ifs with h1 h2 h3 <;> simp only [Prod.mk.injEq, and_true] <;> omega

theorem isLeap_iff (y : Nat) :
    isLeap y = true ↔ (y % 4 = 0 ∧ y % 100 ≠ 0) ∨ y % 400 = 0 := by
  simp [isLeap, Bool.or_eq_true, Bool.and_eq_true, beq_iff_eq, bne_iff_ne]

set_option maxHeartbeats 4000000 in
theorem civil_roundtrip (y m d : Nat) (hy1 : 1 ≤ y) (hm1 : 1 ≤ m) (hm2 : m ≤ 12)
    (hd1 : 1 ≤ d) (hd2 : d ≤ daysInMonth y m) :
    civilFromDays (daysFromCivil y m d) = (y, m, d) := by
  interval_cases m <;> rw [daysFromCivil] <;> norm_num <;> simp only [daysInMonth] at hd2 <;>
    norm_num at hd2
  · -- January: mp = 10
    have h := marchRoundTrip (y - 1) 10 d (by norm_num) hd1 (by omega)
      (Or.inl (by omega)) (Or.inr (by norm_num))
    norm_num at h
    convert h using 2 <;> omega
  · -- February: mp = 11
    have hdoyh : (153 * 11 + 2) / 5 + d - 1 ≤ 364 ∨
        ((153 * 11 + 2) / 5 + d - 1 = 365 ∧
          ((y - 1 + 1) % 4 = 0 ∧ (y - 1 + 1) % 100 ≠ 0 ∨ (y - 1 + 1) % 400 = 0)) := by
      by_cases hL : isLeap y = true
      · rw [if_pos hL] at hd2
        rcases Nat.lt_or_ge d 29 with h' | h'
        · left; omega
        · right
          have hly := (isLeap_iff y).mp hL
          constructor
          · omega
          · omega
      · rw [if_neg hL] at hd2
        left; omega
    have hub : (153 * 11 + 2) / 5 + d - 1 < (153 * (11 + 1) + 2) / 5 := by
      by_cases hL : isLeap y = true
      · rw [if_pos hL] at hd2; omega
      · rw [if_neg hL] at hd2; omega
    have h := marchRoundTrip (y - 1) 11 d (by norm_num) hd1 hub hdoyh (Or.inr (by norm_num))
    norm_num at h
    convert h using 2 <;> omega
  · -- March: mp = 0
    have h := marchRoundTrip y 0 d (by norm_num) hd1 (by omega)
      (Or.inl (by omega)) (Or.inl hy1)
    norm_num at h
    convert h using 2 <;> omega
  · have h := marchRoundTrip y 1 d (by norm_num) hd1 (by omega)
      (Or.inl (by omega)) (Or.inl hy1)
    norm_num at h
    convert h using 2 <;> omega
  · have h := marchRoundTrip y 2 d (by norm_num) hd1 (by omega)
      (Or.inl (by omega)) (Or.inl hy1)
    norm_num at h
    convert h using 2 <;> omega
  · have h := marchRoundTrip y 3 d (by norm_num) hd1 (by omega)
      (Or.inl (by omega)) (Or.inl hy1)
    norm_num at h
    convert h using 2 <;> omega
  · have h := marchRoundTrip y 4 d (by norm_num) hd1 (by omega)
      (Or.inl (by omega)) (Or.inl hy1)
    norm_num at h
    convert h using 2 <;> omega
  · have h := marchRoundTrip y 5 d (by norm_num) hd1 (by omega)
      (Or.inl (by omega)) (Or.inl hy1)
    norm_num at h
    convert h using 2 <;> omega
  · have h := marchRoundTrip y 6 d (by norm_num) hd1 (by omega)
      (Or.inl (by omega)) (Or.inl hy1)
    norm_num at h
    convert h using 2 <;> omega
  · have h := marchRoundTrip y 7 d (by norm_num) hd1 (by omega)
      (Or.inl (by omega)) (Or.inl hy1)
    norm_num at h
    convert h using 2 <;> omega
  · have h := marchRoundTrip y 8 d (by norm_num) hd1 (by omega)
      (Or.inl (by omega)) (Or.inl hy1)
    norm_num at h
    convert h using 2 <;> omega
  · have h := marchRoundTrip y 9 d (by norm_num) hd1 (by omega)
      (Or.inl (by omega)) (Or.inl hy1)
    norm_num at h
    convert h using 2 <;> omega

theorem parse_render (cs : List Char) (t : Civil) (h : parseCivilChars cs = some t) :
    validCivil t ∧ cs = renderCivilChars t := by
  unfold parseCivilChars at h
  split at h
  · rename_i y3 y2 y1 y0 s1 m1 m0 s2 d1 d0 s3 h1 h0 s4 n1 n0 s5 c1 c0
    dsimp only at h
    split_ifs at h with hP hV
    · obtain ⟨hs1, hs2, hs3, hs4, hs5, hdig⟩ := hP
      simp only [List.all_cons, List.all_nil, Bool.and_eq_true, and_true] at hdig
      obtain ⟨hy3, hy2, hy1, hy0, hm1, hm0, hd1, hd0, hh1, hh0, hn1, hn0, hc1, hc0⟩ := hdig
      have ht : t = Civil.mk
          (1000 * digitVal y3 + 100 * digitVal y2 + 10 * digitVal y1 + digitVal y0)
          (10 * digitVal m1 + digitVal m0) (10 * digitVal d1 + digitVal d0)
          (10 * digitVal h1 + digitVal h0) (10 * digitVal n1 + digitVal n0)
          (10 * digitVal c1 + digitVal c0) := (Option.some.inj h).symm
      subst ht
      refine ⟨hV, ?_⟩
      rw [renderCivilChars]
      dsimp only
      rw [pad4_digits _ _ _ _ (digitVal_le hy3) (digitVal_le hy2) (digitVal_le hy1)
          (digitVal_le hy0),
        pad2_digits _ _ (digitVal_le hm1) (digitVal_le hm0),
        pad2_digits _ _ (digitVal_le hd1) (digitVal_le hd0),
        pad2_digits _ _ (digitVal_le hh1) (digitVal_le hh0),
        pad2_digits _ _ (digitVal_le hn1) (digitVal_le hn0),
        pad2_digits _ _ (digitVal_le hc1) (digitVal_le hc0)]
      rw [digitChar_digitVal hy3, digitChar_digitVal hy2, digitChar_digitVal hy1,
        digitChar_digitVal hy0, digitChar_digitVal hm1, digitChar_digitVal hm0,
        digitChar_digitVal hd1, digitChar_digitVal hd0, digitChar_digitVal hh1,
        digitChar_digitVal hh0, digitChar_digitVal hn1, digitChar_digitVal hn0,
        digitChar_digitVal hc1, digitChar_digitVal hc0]
      rw [hs1, hs2, hs3, hs4, hs5]
      rfl
  · simp at h


theorem format_epoch (t : Civil) (hV : validCivil t) :
    unix_ts_to_date (epochSec t) =
      some (String.mk (strftimeChars t ++ ('.' :: ['0', '0', '0', '0', '0', '0']))) := by
  obtain ⟨ty, tmo, td, th, tmi, ts⟩ := t
  have hV' := hV
  unfold validCivil at hV'
  dsimp only at hV'
  have htod : 3600 * th + 60 * tmi + ts ≤ 86399 := by omega
  have hkey : epochSec ⟨ty, tmo, td, th, tmi, ts⟩ + 62135596800 =
      ((86400 * daysFromCivil ty tmo td + (3600 * th + 60 * tmi + ts) : Nat) : Int) := by
    rw [epochSec, epochDays1970]
    dsimp only
    push_cast
    ring
  rw [unix_ts_to_date]
  dsimp only
  rw [hkey]
  rw [if_neg (not_lt.mpr (Int.natCast_nonneg _))]
  rw [Int.toNat_natCast]
  rw [show (86400 * daysFromCivil ty tmo td + (3600 * th + 60 * tmi + ts)) / 86400 =
      daysFromCivil ty tmo td by omega]
  rw [show (86400 * daysFromCivil ty tmo td + (3600 * th + 60 * tmi + ts)) % 86400 =
      3600 * th + 60 * tmi + ts by omega]
  rw [civil_roundtrip ty tmo td (by omega) (by omega) (by omega) (by omega) (by omega)]
  dsimp only
  rw [if_neg (by omega)]
  rw [show (3600 * th + 60 * tmi + ts) / 3600 = th by omega,
    show (3600 * th + 60 * tmi + ts) % 3600 / 60 = tmi by omega,
    show (3600 * th + 60 * tmi + ts) % 60 = ts by omega]

/-- The platform year rendering agrees with the zero-padded one exactly
from year 1000 on. -/
theorem strftimeChars_eq_render (t : Civil) (h : 1000 ≤ t.y) :
    strftimeChars t = renderCivilChars t := by
  rw [strftimeChars, renderCivilChars, yearChars, if_pos h]

/-- **C6** (amended): the two v2 codec functions disagree on units —
`date_to_unix_ts_in_utc` produces epoch milliseconds, `unix_ts_to_date`
consumes epoch seconds (see the counterexample) — but after converting
milliseconds to seconds, exactly as `get_candles` itself does before
formatting, the round-trip holds for every `YYYY-MM-DD HH:MM:SS` string
the parser accepts **whose year is at least 1000**:
`unix_ts_to_date(date_to_unix_ts_in_utc(s) / 1000)` reproduces `s` at
second precision, rendered with the `.000000` microsecond suffix.  Below
year 1000 even this fails, because the platform `strftime` does not zero
pad `%Y`: `"0999-01-01 00:00:00"` comes back as
`"999-01-01 00:00:00.000000"`. -/
theorem C6_roundtrip_after_ms_conversion (s : String) (t : Civil) (e : Int)
    (hp : parseCivil s = some t) (hy : 1000 ≤ t.y)
    (h : date_to_unix_ts_in_utc_v2 s = some e) :
    unix_ts_to_date (e / 1000) = some (s ++ ".000000") ∧
    (date_to_unix_ts_in_utc_v2 "0999-01-01 00:00:00").bind
      (fun ms => unix_ts_to_date (ms / 1000)) =
      some "999-01-01 00:00:00.000000" := by
  refine ⟨?_, by decide⟩
  rw [date_to_unix_ts_in_utc_v2, hp, Option.map_some'] at h
  have he : e = 1000 * epochSec t := (Option.some.inj h).symm
  have hdiv : e / 1000 = epochSec t := by omega
  rw [parseCivil] at hp
  obtain ⟨hV, hs⟩ := parse_render s.data t hp
  rw [hdiv, format_epoch t hV, strftimeChars_eq_render t hy]
  congr 1
  cases s with
  | mk data =>
    simp only at hs
    rw [hs]
    rfl

theorem C6_roundtrip_after_ms_conversion_witness :
    unix_ts_to_date ((1609632000000 : Int) / 1000) =
      some ("2021-01-03 00:00:00" ++ ".000000") ∧
    (1000 : Nat) ≤ (2021 : Nat) :=
  ⟨(C6_roundtrip_after_ms_conversion "2021-01-03 00:00:00" ⟨2021, 1, 3, 0, 0, 0⟩
      1609632000000 rfl (by norm_num) rfl).1, by norm_num⟩

set_option maxHeartbeats 8000000 in
theorem daysFromCivil_mono_md (y m d m' d' : Nat) (hy : 1 ≤ y)
    (hm1 : 1 ≤ m) (hm2' : m' ≤ 12) (hd1 : 1 ≤ d) (hd2 : d ≤ daysInMonth y m)
    (hd1' : 1 ≤ d') (hlt : m < m' ∨ (m = m' ∧ d < d')) :
    daysFromCivil y m d < daysFromCivil y m' d' := by
  have hm2 : m ≤ 12 := by omega
  have hleap := isLeap_iff y
  rw [daysFromCivil, daysFromCivil]
  interval_cases m <;>
    [skip; skip; skip; skip; skip; skip; skip; skip; skip; skip; skip; skip] <;>
    simp only [daysInMonth] at hd2 <;> norm_num at hd2 ⊢ <;>
    (try by_cases hm'2 : m' ≤ 2) <;> (try rw [if_pos hm'2]) <;> (try rw [if_neg hm'2]) <;>
    (try simp only [if_pos hm'2]) <;> (try simp only [if_neg hm'2]) <;>
    (first
      | omega
      | (by_cases hL : isLeap y = true
         · rw [if_pos hL] at hd2
           have := hleap.mp hL
           omega
         · rw [if_neg hL] at hd2
           omega))

theorem f_mono (a b : Nat) (h : a ≤ b) :
    365 * a + a / 4 - a / 100 + a / 400 ≤ 365 * b + b / 4 - b / 100 + b / 400 := by
  have h4 : a / 4 ≤ b / 4 := Nat.div_le_div_right h
  have h400 : a / 400 ≤ b / 400 := Nat.div_le_div_right h
  have h100 : b / 100 ≤ a / 100 + (b - a) := by omega
  omega

theorem f_step (n : Nat) :
    365 * n + n / 4 - n / 100 + n / 400 + 365 ≤
      365 * (n + 1) + (n + 1) / 4 - (n + 1) / 100 + (n + 1) / 400 := by
  omega

theorem daysFromCivil_jan1 (y : Nat) (hy : 1 ≤ y) :
    daysFromCivil y 1 1 = 365 * (y - 1) + (y - 1) / 4 - (y - 1) / 100 + (y - 1) / 400 := by
  rw [daysFromCivil]
  norm_num
  omega

theorem daysFromCivil_dec31 (y : Nat) (hy : 1 ≤ y) :
    daysFromCivil y 12 31 = 365 * y + y / 4 - y / 100 + y / 400 - 1 := by
  rw [daysFromCivil]
  norm_num
  omega

set_option maxHeartbeats 1000000 in
theorem daysFromCivil_mono (y m d y' m' d' : Nat) (hy : 1 ≤ y)
    (hm1 : 1 ≤ m) (hm2 : m ≤ 12) (hd1 : 1 ≤ d) (hd2 : d ≤ daysInMonth y m)
    (hy' : 1 ≤ y') (hm1' : 1 ≤ m') (hm2' : m' ≤ 12) (hd1' : 1 ≤ d')
    (hd2' : d' ≤ daysInMonth y' m')
    (hlex : y < y' ∨ (y = y' ∧ (m < m' ∨ (m = m' ∧ d < d')))) :
    daysFromCivil y m d < daysFromCivil y' m' d' := by
  rcases hlex with hyy | ⟨rfl, hmd⟩
  · -- different years: through Dec 31 / Jan 1
    have h1 : daysFromCivil y m d ≤ daysFromCivil y 12 31 := by
      rcases Nat.lt_or_ge m 12 with hm | hm
      · exact le_of_lt (daysFromCivil_mono_md y m d 12 31 hy hm1 (by norm_num) hd1 hd2
          (by norm_num) (Or.inl hm))
      · have hmeq : m = 12 := by omega
        subst hmeq
        rcases Nat.lt_or_ge d 31 with hd | hd
        · exact le_of_lt (daysFromCivil_mono_md y 12 d 12 31 hy hm1 (by norm_num) hd1 hd2
            (by norm_num) (Or.inr ⟨rfl, hd⟩))
        · have : d = 31 := by
            simp only [daysInMonth] at hd2
            norm_num at hd2
            omega
          subst this
          exact le_refl _
    have h2 : daysFromCivil y' 1 1 ≤ daysFromCivil y' m' d' := by
      rcases Nat.lt_or_ge 1 m' with hm | hm
      · exact le_of_lt (daysFromCivil_mono_md y' 1 1 m' d' hy' (by norm_num) hm2' (by norm_num)
          (by simp [daysInMonth]) hd1' (Or.inl hm))
      · have hmeq : m' = 1 := by omega
        subst hmeq
        rcases Nat.lt_or_ge 1 d' with hd | hd
        · exact le_of_lt (daysFromCivil_mono_md y' 1 1 1 d' hy' (by norm_num) (by norm_num)
            (by norm_num) (by simp [daysInMonth]) hd1' (Or.inr ⟨rfl, hd⟩))
        · have : d' = 1 := by omega
          subst this
          exact le_refl _
    have h3 : daysFromCivil y 12 31 < daysFromCivil y' 1 1 := by
      rw [daysFromCivil_dec31 y hy, daysFromCivil_jan1 y' hy']
      have hstep := f_step y
      have hmono := f_mono y (y' - 1) (by omega)
      omega
    omega
  · exact daysFromCivil_mono_md y m d m' d' hy hm1 hm2' hd1 hd2 hd1' hmd

theorem civLt_trichotomy (u v : Civil) : civLt u v ∨ u = v ∨ civLt v u := by
  obtain ⟨a, b, c, d, e, f⟩ := u
  obtain ⟨a', b', c', d', e', f'⟩ := v
  simp only [civLt, Civil.mk.injEq]
  omega

theorem digitChar_lt (x y : Nat) (hy : y ≤ 9) (h : x < y) :
    digitChar x < digitChar y := by
  interval_cases y <;> interval_cases x <;> decide

theorem lex_append_same (p : List Char) {u v : List Char}
    (h : List.Lex (· < ·) u v) : List.Lex (· < ·) (p ++ u) (p ++ v) := by
  induction p with
  | nil => exact h
  | cons a p ih => exact List.Lex.cons ih

theorem lex_append_left {p q : List Char} (h : List.Lex (· < ·) p q)
    (hlen : p.length = q.length) (u v : List Char) :
    List.Lex (· < ·) (p ++ u) (q ++ v) := by
  induction h with
  | nil => simp at hlen
  | @cons a l₁ l₂ h ih =>
    exact List.Lex.cons (ih (by simpa using hlen))
  | rel h => exact List.Lex.rel h

theorem pad2_lt (a b : Nat) (hb : b ≤ 99) (h : a < b) :
    List.Lex (· < ·) (pad2 a) (pad2 b) := by
  rw [pad2, pad2]
  rcases Nat.lt_trichotomy (a / 10 % 10) (b / 10 % 10) with h1 | h1 | h1
  · exact List.Lex.rel (digitChar_lt _ _ (by omega) h1)
  · rw [h1]
    refine List.Lex.cons (List.Lex.rel (digitChar_lt _ _ (by omega) ?_))
    omega
  · exact absurd h1 (by omega)

theorem pad4_lt (a b : Nat) (hb : b ≤ 9999) (h : a < b) :
    List.Lex (· < ·) (pad4 a) (pad4 b) := by
  rw [pad4, pad4]
  rcases Nat.lt_trichotomy (a / 1000 % 10) (b / 1000 % 10) with h1 | h1 | h1
  · exact List.Lex.rel (digitChar_lt _ _ (by omega) h1)
  · rw [h1]
    rcases Nat.lt_trichotomy (a / 100 % 10) (b / 100 % 10) with h2 | h2 | h2
    · exact List.Lex.cons (List.Lex.rel (digitChar_lt _ _ (by omega) h2))
    · rw [h2]
      rcases Nat.lt_trichotomy (a / 10 % 10) (b / 10 % 10) with h3 | h3 | h3
      · exact List.Lex.cons (List.Lex.cons (List.Lex.rel (digitChar_lt _ _ (by omega) h3)))
      · rw [h3]
        refine List.Lex.cons (List.Lex.cons (List.Lex.cons
          (List.Lex.rel (digitChar_lt _ _ (by omega) ?_))))
        omega
      · exact absurd h3 (by omega)
    · exact absurd h2 (by omega)
  · exact absurd h1 (by omega)

theorem pad2_length (n : Nat) : (pad2 n).length = 2 := rfl

theorem pad4_length (n : Nat) : (pad4 n).length = 4 := rfl

theorem render_lt_of_civLt (u v : Civil) (hu : validCivil u) (hv : validCivil v)
    (h : civLt u v) :
    List.Lex (· < ·) (renderCivilChars u) (renderCivilChars v) := by
  obtain ⟨hy1, hy2, hmo1, hmo2, hd1, hd2, hh, hmi, hs⟩ := hu
  obtain ⟨hy1', hy2', hmo1', hmo2', hd1', hd2', hh', hmi', hs'⟩ := hv
  rw [renderCivilChars, renderCivilChars]
  rcases h with h | ⟨e1, h⟩
  · exact lex_append_left (pad4_lt _ _ hy2' h) (by rw [pad4_length, pad4_length]) _ _
  rw [e1]
  refine lex_append_same (pad4 v.y) ?_
  refine List.Lex.cons ?_
  rcases h with h | ⟨e2, h⟩
  · exact lex_append_left (pad2_lt _ _ (by omega) h) (by rw [pad2_length, pad2_length]) _ _
  rw [e2]
  refine lex_append_same (pad2 v.mo) ?_
  refine List.Lex.cons ?_
  rcases h with h | ⟨e3, h⟩
  · have hdm : v.d ≤ 99 := le_trans hd2' (by rw [daysInMonth]; split_ifs <;> omega)
    exact lex_append_left (pad2_lt _ _ hdm h) (by rw [pad2_length, pad2_length]) _ _
  rw [e3]
  refine lex_append_same (pad2 v.d) ?_
  refine List.Lex.cons ?_
  rcases h with h | ⟨e4, h⟩
  · exact lex_append_left (pad2_lt _ _ (by omega) h) (by rw [pad2_length, pad2_length]) _ _
  rw [e4]
  refine lex_append_same (pad2 v.h) ?_
  refine List.Lex.cons ?_
  rcases h with h | ⟨e5, h⟩
  · exact lex_append_left (pad2_lt _ _ (by omega) h) (by rw [pad2_length, pad2_length]) _ _
  rw [e5]
  refine lex_append_same (pad2 v.mi) ?_
  refine List.Lex.cons ?_
  exact pad2_lt _ _ (by omega) h

theorem epochSec_lt_of_civLt
    (u v : Civil) (hu : validCivil u) (hv : validCivil v) (h : civLt u v) :
    epochSec u < epochSec v := by
  obtain ⟨hy1, hy2, hmo1, hmo2, hd1, hd2, hh, hmi, hs⟩ := hu
  obtain ⟨hy1', hy2', hmo1', hmo2', hd1', hd2', hh', hmi', hs'⟩ := hv
  rw [epochSec, epochSec]
  rcases h with h | ⟨e1, h⟩
  · have hD := daysFromCivil_mono u.y u.mo u.d v.y v.mo v.d hy1 hmo1 hmo2 hd1 hd2
      hy1' hmo1' hmo2' hd1' hd2' (Or.inl h)
    omega
  rcases h with h | ⟨e2, h⟩
  · have hD := daysFromCivil_mono u.y u.mo u.d v.y v.mo v.d hy1 hmo1 hmo2 hd1 hd2
      hy1' hmo1' hmo2' hd1' hd2' (Or.inr ⟨e1, Or.inl h⟩)
    omega
  rcases h with h | ⟨e3, h⟩
  · have hD := daysFromCivil_mono u.y u.mo u.d v.y v.mo v.d hy1 hmo1 hmo2 hd1 hd2
      hy1' hmo1' hmo2' hd1' hd2' (Or.inr ⟨e1, Or.inr ⟨e2, h⟩⟩)
    omega
  · have hD : daysFromCivil u.y u.mo u.d = daysFromCivil v.y v.mo v.d := by
      rw [e1, e2, e3]
    rw [hD]
    omega

theorem date_lt_of_epoch_lt
    (sa sb : String) (u v : Civil) (hu : validCivil u) (hv : validCivil v)
    (hra : sa.data = renderCivilChars u) (hrb : sb.data = renderCivilChars v)
    (hlt : epochSec v < epochSec u) : sb < sa := by
  rcases civLt_trichotomy u v with h | h | h
  · exact absurd (epochSec_lt_of_civLt u v hu hv h) (by omega)
  · rw [h] at hlt
    exact absurd hlt (lt_irrefl _)
  · rw [String.lt_iff_toList_lt]
    show List.Lex (· < ·) sb.data sa.data
    rw [hra, hrb]
    exact render_lt_of_civLt v u hv hu h
theorem date_lt_of_ts_lt
    (sa sb : String) (ea eb : Int)
    (ha : date_to_unix_ts_in_utc sa = some ea)
    (hb : date_to_unix_ts_in_utc sb = some eb) (h : eb < ea) : sb < sa := by
  rw [date_to_unix_ts_in_utc] at ha hb
  obtain ⟨u, hu, heu⟩ := Option.map_eq_some'.mp ha
  obtain ⟨v, hv, hev⟩ := Option.map_eq_some'.mp hb
  have hru := parse_render sa.data u hu
  have hrv := parse_render sb.data v hv
  exact date_lt_of_epoch_lt sa sb u v hru.1 hrv.1 hru.2 hrv.2 (by omega)

/-- Each sorted page is pairwise descending under the Boolean sort key. -/
theorem sortPage_sorted (page : List Trade) :
    List.Pairwise (fun a b => strLeb b.date a.date = true) (sortPage page) := by
  haveI : IsTotal Trade (fun a b => strLeb b.date a.date = true) := ⟨fun a b => by
    rcases le_total b.date a.date with h | h
    · exact Or.inl ((strLeb_iff _ _).mpr h)
    · exact Or.inr ((strLeb_iff _ _).mpr h)⟩
  haveI : IsTrans Trade (fun a b => strLeb b.date a.date = true) := ⟨fun a b c hab hbc =>
    (strLeb_iff _ _).mpr (le_trans ((strLeb_iff _ _).mp hbc) ((strLeb_iff _ _).mp hab))⟩
  exact List.sorted_insertionSort _ page

/-- Each sorted page is a descending chain of date strings. -/
theorem chain_desc_sortPage (page : List Trade) :
    List.Chain' (fun a b : Trade => b.date ≤ a.date) (sortPage page) :=
  ((sortPage_sorted page).imp (fun h => (strLeb_iff _ _).mp h)).chain'

/-- `(t0 :: rest).getLast?` is the element the cursor update parses. -/
theorem getLast?_cons_getLastD {α : Type} (t0 : α) (rest : List α) :
    (t0 :: rest).getLast? = some ((t0 :: rest).getLastD t0) := by
  rw [List.getLastD_eq_getLast?]
  cases hx : (t0 :: rest).getLast? with
  | none => simp at hx
  | some x => rfl

/-- Window invariant: every trade of every page yielded by a normal batch
run parses to an epoch inside `[start, cur]`. -/
theorem batch_window (server : Nat → Int → Int → List Trade) (start : Int)
    (H : ∀ k s c, ∀ t ∈ server k s c,
      ∃ e, date_to_unix_ts_in_utc t.date = some e ∧ s ≤ e ∧ e ≤ c) :
    ∀ fuel cur k ps q, get_trade_history_batch server start fuel cur k = .ok ps q →
      ∀ p ∈ ps, ∀ t ∈ p, ∃ e, date_to_unix_ts_in_utc t.date = some e ∧ start ≤ e ∧ e ≤ cur := by
  intro fuel
  induction fuel with
  | zero =>
    intro cur k ps q h
    rw [get_trade_history_batch] at h
    exact absurd h (by simp)
  | succ fuel ih =>
    intro cur k ps q h
    cases hp : sortPage (server k start cur) with
    | nil =>
      rw [get_trade_history_batch, hp] at h
      cases h
      intro p hp'
      exact absurd hp' (List.not_mem_nil p)
    | cons t0 rest =>
      have hmem : (t0 :: rest).getLastD t0 ∈ server k start cur := by
        apply mem_of_mem_sortPage
        rw [hp, List.getLastD_cons]
        exact getLastD_mem_cons rest t0
      obtain ⟨e, hpe, hse, hec⟩ := H k start cur _ hmem
      have hpage : ∀ t ∈ t0 :: rest, ∃ e, date_to_unix_ts_in_utc t.date = some e ∧
          start ≤ e ∧ e ≤ cur := by
        intro t ht
        rw [← hp] at ht
        exact H k start cur t (mem_of_mem_sortPage ht)
      rw [get_trade_history_batch, hp] at h
      dsimp only at h
      rw [hpe] at h
      dsimp only at h
      by_cases hg : e - 1 ≤ start
      · rw [if_pos hg] at h
        cases h
        intro p hp' t ht
        rw [List.mem_singleton] at hp'
        subst hp'
        exact hpage t ht
      · rw [if_neg hg] at h
        cases hrec : get_trade_history_batch server start fuel (e - 1) (k + 1) with
        | ok ps' q' =>
          rw [hrec] at h
          cases h
          intro p hp' t ht
          rcases List.mem_cons.mp hp' with rfl | hp'
          · exact hpage t ht
          · obtain ⟨e', hpe', hse', hec'⟩ := ih (e - 1) (k + 1) ps' q' hrec p hp' t ht
            exact ⟨e', hpe', hse', by omega⟩
        | parseError ps' q' => rw [hrec] at h; exact absurd h (by simp)
        | outOfFuel ps' q' => rw [hrec] at h; exact absurd h (by simp)

/-- The eager loop returns the concatenation of the pages the lazy loop
yields, with the same number of queries. -/
theorem eager_eq_join_batch (server : Nat → Int → Int → List Trade) (start : Int) :
    ∀ fuel cur k ps q, get_trade_history_batch server start fuel cur k = .ok ps q →
      get_trade_history server start fuel cur k = .ok ps.flatten q := by
  intro fuel
  induction fuel with
  | zero =>
    intro cur k ps q h
    rw [get_trade_history_batch] at h
    exact absurd h (by simp)
  | succ fuel ih =>
    intro cur k ps q h
    cases hp : sortPage (server k start cur) with
    | nil =>
      rw [get_trade_history_batch, hp] at h
      cases h
      rw [get_trade_history, hp]
      simp
    | cons t0 rest =>
      rw [get_trade_history_batch, hp] at h
      dsimp only at h
      rw [get_trade_history, hp]
      dsimp only
      cases hpe : date_to_unix_ts_in_utc (((t0 :: rest).getLastD t0).date) with
      | none => rw [hpe] at h; exact absurd h (by simp)
      | some e =>
        rw [hpe] at h
        dsimp only at h ⊢
        by_cases hg : e - 1 ≤ start
        · rw [if_pos hg] at h ⊢
          cases h
          simp
        · rw [if_neg hg] at h ⊢
          cases hrec : get_trade_history_batch server start fuel (e - 1) (k + 1) with
          | ok ps' q' =>
            rw [hrec] at h
            cases h
            rw [ih (e - 1) (k + 1) ps' q' hrec]
            simp
          | parseError ps' q' => rw [hrec] at h; exact absurd h (by simp)
          | outOfFuel ps' q' => rw [hrec] at h; exact absurd h (by simp)

/-- Each page yielded by a normal batch run is a descending chain of date
strings. -/
theorem batch_pages_chain (server : Nat → Int → Int → List Trade) (start : Int) :
    ∀ fuel cur k ps q, get_trade_history_batch server start fuel cur k = .ok ps q →
      ∀ p ∈ ps, List.Chain' (fun a b : Trade => b.date ≤ a.date) p := by
  intro fuel
  induction fuel with
  | zero =>
    intro cur k ps q h
    rw [get_trade_history_batch] at h
    exact absurd h (by simp)
  | succ fuel ih =>
    intro cur k ps q h
    cases hp : sortPage (server k start cur) with
    | nil =>
      rw [get_trade_history_batch, hp] at h
      cases h
      intro p hp'
      exact absurd hp' (List.not_mem_nil p)
    | cons t0 rest =>
      rw [get_trade_history_batch, hp] at h
      dsimp only at h
      cases hpe : date_to_unix_ts_in_utc (((t0 :: rest).getLastD t0).date) with
      | none => rw [hpe] at h; exact absurd h (by simp)
      | some e =>
        rw [hpe] at h
        dsimp only at h
        by_cases hg : e - 1 ≤ start
        · rw [if_pos hg] at h
          cases h
          intro p hp'
          rw [List.mem_singleton] at hp'
          subst hp'
          exact hp ▸ chain_desc_sortPage (server k start cur)
        · rw [if_neg hg] at h
          cases hrec : get_trade_history_batch server start fuel (e - 1) (k + 1) with
          | ok ps' q' =>
            rw [hrec] at h
            cases h
            intro p hp'
            rcases List.mem_cons.mp hp' with rfl | hp'
            · exact hp ▸ chain_desc_sortPage (server k start cur)
            · exact ih (e - 1) (k + 1) ps' q' hrec p hp'
          | parseError ps' q' => rw [hrec] at h; exact absurd h (by simp)
          | outOfFuel ps' q' => rw [hrec] at h; exact absurd h (by simp)

/-- Under the window precondition the concatenation of the yielded pages
is globally descending by date string. -/
theorem batch_flatten_chain
    (server : Nat → Int → Int → List Trade) (start : Int)
    (H : ∀ k s c, ∀ t ∈ server k s c,
      ∃ e, date_to_unix_ts_in_utc t.date = some e ∧ s ≤ e ∧ e ≤ c) :
    ∀ fuel cur k ps q, get_trade_history_batch server start fuel cur k = .ok ps q →
      List.Chain' (fun a b : Trade => b.date ≤ a.date) ps.flatten := by
  intro fuel
  induction fuel with
  | zero =>
    intro cur k ps q h
    rw [get_trade_history_batch] at h
    exact absurd h (by simp)
  | succ fuel ih =>
    intro cur k ps q h
    cases hp : sortPage (server k start cur) with
    | nil =>
      rw [get_trade_history_batch, hp] at h
      cases h
      simp
    | cons t0 rest =>
      rw [get_trade_history_batch, hp] at h
      dsimp only at h
      cases hpe : date_to_unix_ts_in_utc (((t0 :: rest).getLastD t0).date) with
      | none => rw [hpe] at h; exact absurd h (by simp)
      | some e =>
        rw [hpe] at h
        dsimp only at h
        by_cases hg : e - 1 ≤ start
        · rw [if_pos hg] at h
          cases h
          rw [List.flatten_cons, List.flatten_nil, List.append_nil]
          exact hp ▸ chain_desc_sortPage (server k start cur)
        · rw [if_neg hg] at h
          cases hrec : get_trade_history_batch server start fuel (e - 1) (k + 1) with
          | ok ps' q' =>
            rw [hrec] at h
            cases h
            rw [List.flatten_cons]
            rw [List.chain'_append]
            refine ⟨hp ▸ chain_desc_sortPage (server k start cur),
              ih (e - 1) (k + 1) ps' q' hrec, ?_⟩
            intro x hx y hy
            rw [getLast?_cons_getLastD, Option.mem_def, Option.some.injEq] at hx
            have hy' : y ∈ ps'.flatten := List.mem_of_mem_head? hy
            rw [List.mem_flatten] at hy'
            obtain ⟨p, hpmem, hyp⟩ := hy'
            obtain ⟨e', hpe', hse', hec'⟩ :=
              batch_window server start H fuel (e - 1) (k + 1) ps' q' hrec p hpmem y hyp
            have hxdate : date_to_unix_ts_in_utc x.date = some e := by rw [← hx]; exact hpe
            exact le_of_lt (date_lt_of_ts_lt x.date y.date e e' hxdate hpe' (by omega))
          | parseError ps' q' => rw [hrec] at h; exact absurd h (by simp)
          | outOfFuel ps' q' => rw [hrec] at h; exact absurd h (by simp)

/-- `serverWindowed` satisfies the window precondition. -/
theorem serverWindowed_window :
    ∀ k s c, ∀ t ∈ serverWindowed k s c,
      ∃ e, date_to_unix_ts_in_utc t.date = some e ∧ s ≤ e ∧ e ≤ c := by
  intro k s c t ht
  simp only [serverWindowed] at ht
  rw [List.mem_filter] at ht
  obtain ⟨_, hw⟩ := ht
  rw [inWindow] at hw
  split at hw
  · rename_i e heq
    exact ⟨e, heq, of_decide_eq_true hw⟩
  · exact absurd hw (by simp)

/-- **C3**: a normal lazy-paginator run yields pages whose concatenation,
in retrieval order, is exactly the eager paginator's result (with the
same query count); every yielded page is descending by raw date string;
and, provided the server honours the queried window (every returned
trade carries a parseable date between `start` and the current cursor),
the whole concatenation is descending by date string. -/
theorem C3_descending_concat (server : Nat → Int → Int → List Trade) (start : Int)
    (fuel : Nat) (cur : Int) (k : Nat) (ps : List (List Trade)) (q : Nat)
    (hrun : get_trade_history_batch server start fuel cur k = .ok ps q) :
    get_trade_history server start fuel cur k = .ok ps.flatten q ∧
    (∀ p ∈ ps, List.Chain' (fun a b : Trade => b.date ≤ a.date) p) ∧
    ((∀ k' s c, ∀ t ∈ server k' s c,
        ∃ e, date_to_unix_ts_in_utc t.date = some e ∧ s ≤ e ∧ e ≤ c) →
      List.Chain' (fun a b : Trade => b.date ≤ a.date) ps.flatten) :=
  ⟨eager_eq_join_batch server start fuel cur k ps q hrun,
   batch_pages_chain server start fuel cur k ps q hrun,
   fun H => batch_flatten_chain server start H fuel cur k ps q hrun⟩

theorem C3_descending_concat_witness :
    get_trade_history serverWindowed 0 10 2000000000 0 =
      .ok [tradeAt "2021-01-03 00:00:00", tradeAt "2021-01-02 00:00:00",
        tradeAt "2021-01-01 00:00:00"] 2 ∧
    List.Chain' (fun a b : Trade => b.date ≤ a.date)
      [tradeAt "2021-01-03 00:00:00", tradeAt "2021-01-02 00:00:00",
        tradeAt "2021-01-01 00:00:00"] := by
  have h := C3_descending_concat serverWindowed 0 10 2000000000 0
    [[tradeAt "2021-01-03 00:00:00", tradeAt "2021-01-02 00:00:00",
      tradeAt "2021-01-01 00:00:00"]] 2 (by decide)
  exact ⟨by simpa using h.1, by simpa using h.2.2 serverWindowed_window⟩
